import Mathlib

/-!
Verification of the timetabling-udp scheduling core against its specification.

This file shallowly embeds the Go source of the repository:
  * the domain model (internal/domain: Activity, Room, block grid, protected block),
  * the conflict-graph builder (internal/graph),
  * the integrated constructive scheduler with room constraints,
  * the simulated-annealing refiner (internal/solver/simulated_annealing.go),
and proves (or refutes) the frozen claims about them.

Modelling conventions, used throughout and noted at each definition:
  * Go `int` is modelled as `Int`; Go integer division and remainder truncate
    toward zero, which is `Int.tdiv` / `Int.tmod`.
  * Go `float64` values produced by the cost functions are sums of small integer
    constants (50, 30, 25, ...); such sums are exact in IEEE double precision, so
    costs are modelled as `Int`.  Percentage metrics divide by a count and are
    modelled as `ℚ` (again exact: the Go code performs a single division).
  * Go maps are embedded by content: a map is a function from keys to values
    (or an association list where insertion order matters).  The Go code never
    iterates a map in an order that can influence a result value, except for the
    `prerequisites` map, whose iteration order is modelled explicitly as the
    order of an association list (see the determinism claim).
  * Go slices of pointers into the activities array are modelled by storing the
    activity values; the code only ever reads immutable fields (id, course,
    teachers, sections, type) through such pointers, so value copies are
    observationally equivalent.  The single array of activities, which Go
    mutates through pointers, is threaded explicitly as state.
-/

namespace TimetablingUDP

/-- Event categories, from internal/domain/constants.go (CATEDRA, AYUDANTIA,
LABORATORIO). -/
inductive EventCategory where
  | CAT
  | AY
  | LAB
deriving DecidableEq, Repr, Inhabited

/-- Room types, from internal/domain/constants.go (SALA = classroom,
LABORATORIO = lab).  Constructor names are English to avoid clashes. -/
inductive RoomType where
  | classroom
  | lab
deriving DecidableEq, Repr, Inhabited

/-- Activity, from internal/domain (unnamed/part_009).  Field names follow the
Go struct. -/
structure Activity where
  id : Nat
  code : String
  courseCode : String
  courseName : String
  type : EventCategory
  eventNumber : Int
  sections : List Int
  students : Int
  teacherNames : List String
  duration : Int
  siblingGroupID : String
  block : Int
  room : String
deriving DecidableEq, Repr, Inhabited

/-- Room, from internal/domain (unnamed/part_009). -/
structure Room where
  code : String
  capacity : Int
  rtype : RoomType
deriving DecidableEq, Repr, Inhabited

/-- BlocksPerDay constant (7). -/
def BlocksPerDay : Int := 7

/-- TotalBlocks constant (35). -/
def TotalBlocks : Int := 35

/-- ProtectedWednesdayBlock constant: 2*BlocksPerDay + 2 = 16. -/
def ProtectedWednesdayBlock : Int := 16

/-- IsProtectedBlock, from internal/domain/constants.go. -/
def IsProtectedBlock (block : Int) : Bool :=
  block == ProtectedWednesdayBlock

/-- Duration normalization used repeatedly in the source:
`if duration < 1 { duration = 1 }`. -/
def normDur (d : Int) : Int := if d < 1 then 1 else d

/-- OccupiesProtectedBlock, from internal/domain/constants.go lines 43-52. -/
def OccupiesProtectedBlock (startBlock duration : Int) : Bool :=
  let d := normDur duration
  let endBlock := startBlock + d - 1
  decide (startBlock ≤ ProtectedWednesdayBlock) &&
    decide (ProtectedWednesdayBlock ≤ endBlock)

/-- HasTeacher, from internal/domain (unnamed/part_009). -/
def HasTeacher (a : Activity) (name : String) : Bool :=
  a.teacherNames.any (fun t => t == name)

/-- SharesTeacher, from internal/domain (unnamed/part_009): the two activities
share at least one teacher name. -/
def SharesTeacher (a other : Activity) : Bool :=
  a.teacherNames.any (fun t => HasTeacher other t)

/-- SharesSection, from internal/domain (unnamed/part_009 lines 133-148):
activities of different courses never share a section; otherwise the section
id lists must intersect. -/
def SharesSection (a other : Activity) : Bool :=
  if a.courseCode ≠ other.courseCode then false
  else a.sections.any (fun s => other.sections.any (fun os => s == os))

/-- blockToDaySlot, from simulated_annealing.go: truncating division and
remainder by BlocksPerDay, exactly as Go computes them on int. -/
def blockToDaySlot (block : Int) : Int × Int :=
  (Int.tdiv block BlocksPerDay, Int.tmod block BlocksPerDay)

/-! ## Occupancy indices of the simulated-annealing refiner

The Go code keeps two indices: `blockOccupancy : block -> []*Activity` and
`roomBlockOccupancy : room+":"+block -> *Activity` (the key is the string
concatenation, which is injective in (room, block) because the decimal
rendering of the block contains no colon; we key by the pair directly). -/

/-- buildBlockOccupancy, from simulated_annealing.go lines 231-246: every
activity is appended, in array order, to the bucket of every block in
`[Block, Block + normDur Duration)`.  No `Block ≥ 0` guard is performed. -/
def buildBlockOccupancy (activities : List Activity) : Int → List Activity :=
  activities.foldl
    (fun occ a => fun b =>
      if a.block ≤ b ∧ b ≤ a.block + normDur a.duration - 1 then occ b ++ [a]
      else occ b)
    (fun _ => [])

/-- buildRoomBlockOccupancy, from simulated_annealing.go lines 391-407: for
each activity, in array order, the key (Room, Block + d) is overwritten with
the activity for every d in `[0, normDur Duration)`.  Later activities
overwrite earlier ones at the same key. -/
def buildRoomBlockOccupancy (activities : List Activity) :
    String → Int → Option Activity :=
  activities.foldl
    (fun occ a => fun r b =>
      if r = a.room ∧ a.block ≤ b ∧ b ≤ a.block + normDur a.duration - 1 then some a
      else occ r b)
    (fun _ _ => none)

/-- hasConflictInBlockWithRoom, from simulated_annealing.go lines 465-519.
The curriculum clique map is passed as its characteristic function (the Go
code's nil-check on the outer map is absorbed: a missing course maps every
other course to false). -/
def hasConflictInBlockWithRoom (activity : Activity) (block : Int) (room : String)
    (blockOcc : Int → List Activity) (roomBlockOcc : String → Int → Option Activity)
    (cliqueConflicts : String → String → Bool) : Bool :=
  let duration := normDur activity.duration
  let startDay := Int.tdiv block BlocksPerDay
  let endBlock := block + duration - 1
  let endDay := Int.tdiv endBlock BlocksPerDay
  if startDay ≠ endDay then true
  else
    let slotInDay := Int.tmod block BlocksPerDay
    if slotInDay + duration > BlocksPerDay then true
    else if OccupiesProtectedBlock block duration then true
    else
      (List.range duration.toNat).any (fun i =>
        let b := block + (i : Int)
        (match roomBlockOcc room b with
         | some existing => existing.id != activity.id
         | none => false)
        ||
        (blockOcc b).any (fun other =>
          other.id != activity.id &&
          (SharesTeacher activity other || SharesSection activity other ||
            cliqueConflicts activity.courseCode other.courseCode)))

/-! ## Room constraints (internal/loader) -/

/-- RoomConstraints, from internal/loader: a two-level map
`courseCode -> eventType -> allowed room codes`, embedded as an association
list (lookup by first match, like a Go map with unique keys). -/
def RoomConstraints : Type := List (String × List (String × List String))

/-- eventTypeToString, from the solver package: EventCategory to the string
used as the constraint key. -/
def eventTypeToString (t : EventCategory) : String :=
  match t with
  | EventCategory.CAT => "CATEDRA"
  | EventCategory.AY => "AYUDANTIA"
  | EventCategory.LAB => "LABORATORIO"

/-- contains helper from the solver package. -/
def containsStr (slice : List String) (s : String) : Bool :=
  slice.any (fun v => v == s)

/-- GetAllowedRooms, from internal/loader/loader.go lines 421-430: a present
(course, eventType) entry returns its list; any missing level returns nil,
modelled as `none` (= no restriction). -/
def GetAllowedRooms (rc : RoomConstraints) (courseCode eventType : String) :
    Option (List String) :=
  match rc.lookup courseCode with
  | none => none
  | some courseConstraints => courseConstraints.lookup eventType

/-- selectValidRoom, from simulated_annealing.go lines 410-462.  A room is
valid when: (RC3) every block of `[block, block + duration)` is free in the
room-block index or held by the activity itself; (RC6) if an explicit
whitelist exists the room code must be whitelisted, otherwise (RC5) the room
type must match the activity type (lab rooms for LAB, classrooms otherwise);
(RC4) the capacity is at least the student count.  The Go code returns a
uniformly random element of the valid list; the random draw is modelled by
the extra argument `pick`, reduced modulo the list length (`rand.Intn`).
The Go parameter `roomMap` is dead in the source and omitted here. -/
def selectValidRoom (activity : Activity) (block : Int) (rooms : List Room)
    (constraints : RoomConstraints)
    (roomBlockOcc : String → Int → Option Activity) (pick : Nat) : String :=
  let allowedCodes := GetAllowedRooms constraints activity.courseCode
    (eventTypeToString activity.type)
  let duration := normDur activity.duration
  let validRooms := (rooms.filter (fun room =>
    ((List.range duration.toNat).all (fun d =>
      match roomBlockOcc room.code (block + (d : Int)) with
      | some existing => existing.id == activity.id
      | none => true))
    &&
    (match allowedCodes with
     | some codes => containsStr codes room.code
     | none =>
       if activity.type = EventCategory.LAB then room.rtype == RoomType.lab
       else room.rtype == RoomType.classroom)
    && decide (activity.students ≤ room.capacity))).map (fun r => r.code)
  if validRooms.isEmpty then ""
  else validRooms.getD (pick % validRooms.length) ""

/-! ## Soft-cost functions (simulated_annealing.go)

The Go sibling index maps a non-empty sibling-group id to the pointers of the
activities carrying it, in array order.  Because the cost code dereferences
those pointers for *current* block/room values, the index is embedded as a
lookup over the current activities list. -/

/-- buildSiblingIndex, from simulated_annealing.go: activities with the given
non-empty sibling-group id, in array order (current values). -/
def buildSiblingIndex (activities : List Activity) (gid : String) : List Activity :=
  if gid = "" then []
  else activities.filter (fun a => a.siblingGroupID == gid)

/-- abs helper from the source (Go has no integer abs builtin). -/
def absInt (x : Int) : Int := if x < 0 then -x else x

/-- Day-separation term of activityCostForBlockAndRoom /
calculateTotalCostWithRooms: identical switch in both Go functions. -/
def daySeparationCost (numCatSibs : Nat) (daySeparation : Int) : Int :=
  if numCatSibs = 2 then
    if daySeparation = 3 then -20
    else if daySeparation = 2 then 0
    else if daySeparation = 1 then 25
    else if daySeparation = 0 then 60
    else 10
  else if 3 ≤ numCatSibs then
    if daySeparation = 0 then 80
    else if daySeparation = 1 then 15
    else 0
  else 0

/-- activityCostForBlockAndRoom, from simulated_annealing.go lines 563-641:
the per-activity soft cost of placing `activity` at (block, room), given the
current positions of its siblings.  Costs are exact integers (see header). -/
def activityCostForBlockAndRoom (activities : List Activity) (activity : Activity)
    (block : Int) (room : String) : Int :=
  let catPart :=
    if activity.siblingGroupID ≠ "" ∧ activity.type = EventCategory.CAT then
      let sibs := buildSiblingIndex activities activity.siblingGroupID
      let myDay := (blockToDaySlot block).1
      let mySlot := (blockToDaySlot block).2
      let catSibs := sibs.filter (fun sib => sib.type == EventCategory.CAT)
      let pairCosts := catSibs.map (fun sib =>
        if sib.id = activity.id then 0
        else
          let sibDay := (blockToDaySlot sib.block).1
          let sibSlot := (blockToDaySlot sib.block).2
          (if sibSlot ≠ mySlot then (50 : Int) else 0) +
          (if sib.room ≠ room then (30 : Int) else 0) +
          daySeparationCost catSibs.length (absInt (myDay - sibDay)))
      let ayCosts := sibs.map (fun sib =>
        if sib.type = EventCategory.AY ∧ myDay = (blockToDaySlot sib.block).1
        then (35 : Int) else 0)
      pairCosts.sum + ayCosts.sum
    else 0
  let ayPart :=
    if activity.type = EventCategory.AY ∧ (blockToDaySlot block).1 ≠ 2
    then (10 : Int) else 0
  catPart + ayPart

/-- Cost of one counted sibling group inside calculateTotalCostWithRooms
(simulated_annealing.go lines 651-748): each lecture sibling j ≥ 1 is compared
against the first lecture sibling only; a group with fewer than two lecture
siblings contributes nothing (including its lecture/tutorial same-day term). -/
def catGroupCost (activities : List Activity) (gid : String) : Int :=
  let sibs := buildSiblingIndex activities gid
  let catSibs := sibs.filter (fun sib => sib.type == EventCategory.CAT)
  match catSibs with
  | [] => 0
  | c0 :: rest =>
    if catSibs.length < 2 then 0
    else
      let baseDay := (blockToDaySlot c0.block).1
      let baseSlot := (blockToDaySlot c0.block).2
      let baseRoom := c0.room
      let pairCosts := rest.map (fun cj =>
        let day := (blockToDaySlot cj.block).1
        let slot := (blockToDaySlot cj.block).2
        (if slot ≠ baseSlot then (50 : Int) else 0) +
        (if cj.room ≠ baseRoom then (30 : Int) else 0) +
        daySeparationCost catSibs.length (absInt (day - baseDay)))
      let ayCosts := catSibs.map (fun cat =>
        (sibs.map (fun sib =>
          if sib.type = EventCategory.AY ∧
              (blockToDaySlot cat.block).1 = (blockToDaySlot sib.block).1
          then (35 : Int) else 0)).sum)
      pairCosts.sum + ayCosts.sum

/-- The lecture part of calculateTotalCostWithRooms: the Go loop walks the
activities in array order and, at the first lecture occurrence of each
not-yet-counted sibling group, adds that group's cost once (the `counted`
set). -/
def catCostLoop (activities : List Activity) :
    List Activity → List String → Int
  | [], _ => 0
  | a :: rest, counted =>
    if a.siblingGroupID = "" ∨ a.type ≠ EventCategory.CAT ∨
        counted.contains a.siblingGroupID then
      catCostLoop activities rest counted
    else
      catGroupCost activities a.siblingGroupID +
        catCostLoop activities rest (a.siblingGroupID :: counted)

/-- Prerequisite pairs are (position of prereq activity, position of dependent
activity) into the activities array; the Go list holds pointers. -/
def PrereqPair : Type := Nat × Nat

/-- Dereference a stored activity position against the current array. -/
def derefAct (activities : List Activity) (i : Nat) : Activity :=
  activities.getD i default

/-- calculateTotalCostWithRooms, from simulated_annealing.go lines 651-748:
lecture sibling terms (counted once per group), +10 for every tutorial whose
day is not Wednesday (day 2), and -15 for every prerequisite pair whose two
activities have equal Block values. -/
def calculateTotalCostWithRooms (activities : List Activity)
    (prereqPairs : List PrereqPair) : Int :=
  catCostLoop activities activities []
  + (activities.map (fun a =>
      if a.type = EventCategory.AY ∧ (blockToDaySlot a.block).1 ≠ 2
      then (10 : Int) else 0)).sum
  + (prereqPairs.map (fun p =>
      if (derefAct activities p.1).block = (derefAct activities p.2).block
      then (-15 : Int) else 0)).sum

/-! ## Simulated-annealing state machine (simulated_annealing.go) -/

/-- removeFromOccupancy, from simulated_annealing.go: for every block of the
span, drop the first list entry with the activity's id and delete the
room-block key. -/
def removeFromOccupancy (activity : Activity) (block : Int) (room : String)
    (blockOcc : Int → List Activity)
    (roomBlockOcc : String → Int → Option Activity) :
    (Int → List Activity) × (String → Int → Option Activity) :=
  let d := normDur activity.duration
  (fun b =>
    if block ≤ b ∧ b ≤ block + d - 1 then
      (blockOcc b).eraseP (fun a => a.id == activity.id)
    else blockOcc b,
   fun r b =>
    if r = room ∧ block ≤ b ∧ b ≤ block + d - 1 then none
    else roomBlockOcc r b)

/-- addToOccupancy, from simulated_annealing.go: append the activity to every
block bucket of the span and set every room-block key of the span. -/
def addToOccupancy (activity : Activity) (block : Int) (room : String)
    (blockOcc : Int → List Activity)
    (roomBlockOcc : String → Int → Option Activity) :
    (Int → List Activity) × (String → Int → Option Activity) :=
  let d := normDur activity.duration
  (fun b =>
    if block ≤ b ∧ b ≤ block + d - 1 then blockOcc b ++ [activity]
    else blockOcc b,
   fun r b =>
    if r = room ∧ block ≤ b ∧ b ≤ block + d - 1 then some activity
    else roomBlockOcc r b)

/-- Mutable state of the SA loop: the activities array (source of truth) and
the two occupancy indices. -/
structure SAState where
  acts : List Activity
  blockOcc : Int → List Activity
  roomBlockOcc : String → Int → Option Activity

/-- One iteration's worth of random draws, plus the Metropolis coin.  The Go
loop draws `rand.Intn(len(activities))`, `rand.Intn(2)`,
`rand.Intn(TotalBlocks)` or a uniform index into the valid rooms, and compares
`rand.Float64()` with `exp(-delta/T)`; the draws are modelled as arbitrary
naturals reduced by the appropriate modulus, and the float comparison as the
boolean-valued function `accept` of the (integer) delta and the temperature. -/
structure SADraw where
  actIdx : Nat
  moveType : Nat
  newBlockDraw : Nat
  roomPick : Nat
  accept : Int → ℚ → Bool

/-- One iteration of the inner SA loop (simulated_annealing.go lines 83-160):
pick an activity, choose block move or room move, reject on hard-constraint
violation or empty/identical proposal, otherwise accept when the delta is
negative or the Metropolis coin fires, updating the array and both indices.
Returns the new state and the new improvements counter. -/
def saStep (rooms : List Room) (constraints : RoomConstraints)
    (cliqueConflicts : String → String → Bool) (temperature : ℚ)
    (s : SAState) (improvements : Nat) (draw : SADraw) : SAState × Nat :=
  if s.acts.length = 0 then (s, improvements)
  else
    let idx := draw.actIdx % s.acts.length
    let activity := s.acts.getD idx default
    if draw.moveType % 2 = 0 then
      let newBlock : Int := ((draw.newBlockDraw % TotalBlocks.toNat : Nat) : Int)
      let oldBlock := activity.block
      if newBlock = oldBlock then (s, improvements)
      else if hasConflictInBlockWithRoom activity newBlock activity.room
          s.blockOcc s.roomBlockOcc cliqueConflicts then (s, improvements)
      else
        let oldCost := activityCostForBlockAndRoom s.acts activity oldBlock activity.room
        let newCostVal := activityCostForBlockAndRoom s.acts activity newBlock activity.room
        let delta := newCostVal - oldCost
        if delta < 0 ∨ draw.accept delta temperature = true then
          let occ1 := removeFromOccupancy activity oldBlock activity.room
            s.blockOcc s.roomBlockOcc
          let activity2 := { activity with block := newBlock }
          let occ2 := addToOccupancy activity2 newBlock activity2.room occ1.1 occ1.2
          (⟨s.acts.set idx activity2, occ2.1, occ2.2⟩,
           if delta < 0 then improvements + 1 else improvements)
        else (s, improvements)
    else
      let newRoom := selectValidRoom activity activity.block rooms constraints
        s.roomBlockOcc draw.roomPick
      if newRoom = "" ∨ newRoom = activity.room then (s, improvements)
      else
        let oldRoom := activity.room
        let oldCost := activityCostForBlockAndRoom s.acts activity activity.block oldRoom
        let newCostVal := activityCostForBlockAndRoom s.acts activity activity.block newRoom
        let delta := newCostVal - oldCost
        if delta < 0 ∨ draw.accept delta temperature = true then
          let occ1 := removeFromOccupancy activity activity.block oldRoom
            s.blockOcc s.roomBlockOcc
          let activity2 := { activity with room := newRoom }
          let occ2 := addToOccupancy activity2 activity2.block newRoom occ1.1 occ1.2
          (⟨s.acts.set idx activity2, occ2.1, occ2.2⟩,
           if delta < 0 then improvements + 1 else improvements)
        else (s, improvements)

/-! ## Index builders used once at SA entry -/

/-- buildCourseIndex, from simulated_annealing.go: positions (array indices,
standing in for the Go pointers) of the activities of a course, in array
order. -/
def buildCourseIndex (activities : List Activity) (course : String) : List Nat :=
  (List.range activities.length).filter
    (fun i => (activities.getD i default).courseCode == course)

/-- buildPrereqPairs, from simulated_annealing.go lines 195-211.  The Go code
ranges over the `prerequisites` map; the iteration order is the order of this
association list (see the determinism theorem, which proves the result does
not depend on it). -/
def buildPrereqPairs (prerequisites : List (String × List String))
    (activities : List Activity) : List PrereqPair :=
  prerequisites.flatMap (fun dep =>
    dep.2.flatMap (fun prereqCode =>
      (buildCourseIndex activities prereqCode).flatMap (fun p =>
        (buildCourseIndex activities dep.1).map (fun q => ((p, q) : PrereqPair)))))

/-- SectionGroupKey, from internal/utils/sections.go: the sorted section list
(the Go code renders it as a dash-joined string, with "empty" for the empty
list; the rendering is injective, so the sorted list itself serves as key). -/
def SectionGroupKey (sections : List Int) : List Int :=
  sections.insertionSort (fun a b => a ≤ b)

/-- The distinct section-group keys of a course among the given activities. -/
def courseSectionKeys (activities : List Activity) (course : String) :
    List (List Int) :=
  (((activities.filter (fun a => a.courseCode == course)).map
    (fun a => SectionGroupKey a.sections)).dedup)

/-- A course qualifies for semester cliques when its activities exhibit exactly
one section group and it is not elective (simulated_annealing.go
buildCliqueMap, graph builder BuildFromActivitiesWithCliques). -/
def isSingleSectionCourse (activities : List Activity) (electives : List String)
    (course : String) : Bool :=
  (courseSectionKeys activities course).length == 1 && !(electives.contains course)

/-- Plan locations: course -> list of (major, semester), an association list
standing for the Go map `map[string]map[string]int`. -/
def PlanLocations : Type := List (String × List (String × Int))

/-- buildCliqueMap, from simulated_annealing.go lines 249-303, embedded as the
characteristic function of the resulting two-level map: two courses conflict
iff they are distinct, both are single-section non-elective courses present in
the activity set, and some major places both in the same semester.  (The Go
construction groups courses by (major, semester) and links all pairs inside a
group of size ≥ 2; membership of both distinct courses in one group is exactly
the condition below.) -/
def buildCliqueMap (activities : List Activity) (planLocations : PlanLocations)
    (electives : List String) : String → String → Bool :=
  fun c1 c2 =>
    c1 != c2 &&
    isSingleSectionCourse activities electives c1 &&
    isSingleSectionCourse activities electives c2 &&
    (match planLocations.lookup c1, planLocations.lookup c2 with
     | some locs1, some locs2 =>
       locs1.any (fun ms => locs2.any (fun ms2 => ms.1 == ms2.1 && ms.2 == ms2.2))
     | _, _ => false)

/-! ## Quality metrics (simulated_annealing.go) -/

/-- calculateMirrorPenalty: once per sibling group (any type, first occurrence
in array order), compare every sibling to the first: +50 per slot mismatch,
+20 per room mismatch; groups of fewer than two siblings are skipped. -/
def mirrorGroupPenalty (activities : List Activity) (gid : String) : Int :=
  match buildSiblingIndex activities gid with
  | [] => 0
  | s0 :: rest =>
    if rest.length = 0 then 0
    else
      (rest.map (fun sj =>
        (if (blockToDaySlot sj.block).2 ≠ (blockToDaySlot s0.block).2
         then (50 : Int) else 0) +
        (if sj.room ≠ s0.room then (20 : Int) else 0))).sum

/-- The counted-group traversal shared by calculateMirrorPenalty. -/
def mirrorLoop (activities : List Activity) :
    List Activity → List String → Int
  | [], _ => 0
  | a :: rest, counted =>
    if a.siblingGroupID = "" ∨ counted.contains a.siblingGroupID then
      mirrorLoop activities rest counted
    else
      mirrorGroupPenalty activities a.siblingGroupID +
        mirrorLoop activities rest (a.siblingGroupID :: counted)

/-- calculateMirrorPenalty, from simulated_annealing.go lines 316-352. -/
def calculateMirrorPenalty (activities : List Activity) : Int :=
  mirrorLoop activities activities []

/-- calculateWednesdayBonus, from simulated_annealing.go: percentage of
tutorials on day 2; 0 when there are no tutorials. -/
def calculateWednesdayBonus (activities : List Activity) : ℚ :=
  let ays := activities.filter (fun a => a.type == EventCategory.AY)
  if ays.length = 0 then 0
  else ((ays.filter (fun a => (blockToDaySlot a.block).1 = 2)).length : ℚ)
    / (ays.length : ℚ) * 100

/-- calculatePrereqBonus, from simulated_annealing.go: percentage of
prerequisite pairs with equal Block values; 0 when there are no pairs. -/
def calculatePrereqBonus (activities : List Activity)
    (prereqPairs : List PrereqPair) : ℚ :=
  if prereqPairs.length = 0 then 0
  else ((prereqPairs.filter (fun p =>
      (derefAct activities p.1).block = (derefAct activities p.2).block)).length : ℚ)
    / (prereqPairs.length : ℚ) * 100

/-- Room consistency of one sibling group: 1 when all siblings share the first
sibling's room (groups smaller than two are not counted). -/
def roomConsistentGroup (activities : List Activity) (gid : String) : Bool :=
  match buildSiblingIndex activities gid with
  | [] => true
  | s0 :: rest => rest.all (fun sj => sj.room == s0.room)

/-- The counted-group traversal of calculateRoomConsistency, returning
(totalGroups, consistentGroups). -/
def roomConsistencyLoop (activities : List Activity) :
    List Activity → List String → Nat × Nat
  | [], _ => (0, 0)
  | a :: rest, counted =>
    if a.siblingGroupID = "" ∨ counted.contains a.siblingGroupID then
      roomConsistencyLoop activities rest counted
    else
      let r := roomConsistencyLoop activities rest (a.siblingGroupID :: counted)
      if (buildSiblingIndex activities a.siblingGroupID).length < 2 then r
      else if roomConsistentGroup activities a.siblingGroupID then
        (r.1 + 1, r.2 + 1)
      else (r.1 + 1, r.2)

/-- calculateRoomConsistency, from simulated_annealing.go lines 751-784:
percentage of sibling groups (of size ≥ 2) whose members all share the first
member's room; 100 when there are no such groups. -/
def calculateRoomConsistency (activities : List Activity) : ℚ :=
  let r := roomConsistencyLoop activities activities []
  if r.1 = 0 then 100 else (r.2 : ℚ) / (r.1 : ℚ) * 100

/-- Day-separation metric of one group: counted only when the group has
exactly two lecture siblings; ideal when their days differ by 3. -/
def daySeparationLoop (activities : List Activity) :
    List Activity → List String → Nat × Nat
  | [], _ => (0, 0)
  | a :: rest, counted =>
    if a.siblingGroupID = "" ∨ a.type ≠ EventCategory.CAT ∨
        counted.contains a.siblingGroupID then
      daySeparationLoop activities rest counted
    else
      let r := daySeparationLoop activities rest (a.siblingGroupID :: counted)
      let catSibs := (buildSiblingIndex activities a.siblingGroupID).filter
        (fun sib => sib.type == EventCategory.CAT)
      if catSibs.length ≠ 2 then r
      else
        let d0 := (blockToDaySlot (catSibs.getD 0 default).block).1
        let d1 := (blockToDaySlot (catSibs.getD 1 default).block).1
        if absInt (d0 - d1) = 3 then (r.1 + 1, r.2 + 1) else (r.1 + 1, r.2)

/-- calculateDaySeparationMetric, from simulated_annealing.go lines 787-826. -/
def calculateDaySeparationMetric (activities : List Activity) : ℚ :=
  let r := daySeparationLoop activities activities []
  if r.1 = 0 then 100 else (r.2 : ℚ) / (r.1 : ℚ) * 100

/-- SAConfig, from simulated_annealing.go lines 14-29 (temperatures are
rationals standing for the Go float64 values). -/
structure SAConfig where
  initialTemp : ℚ
  coolingRate : ℚ
  minTemp : ℚ
  iterationsPerT : Nat

/-- SAResult, from simulated_annealing.go lines 32-42. -/
structure SAResult where
  initialCost : Int
  finalCost : Int
  iterations : Nat
  improvements : Nat
  mirrorPenalty : Int
  wednesdayBonus : ℚ
  prereqBonus : ℚ
  roomConsistency : ℚ
  daySeparation : ℚ
deriving DecidableEq

/-- The two nested SA loops.  The number of temperature levels actually
executed by the Go `for temperature > MinTemp` loop is a function of the three
float configuration values alone; it is passed explicitly as `levels`.  The
random tape assigns a draw to every global iteration counter value. -/
def saLoop (rooms : List Room) (constraints : RoomConstraints)
    (cliqueConflicts : String → String → Bool) (config : SAConfig)
    (tape : Nat → SADraw) :
    Nat → ℚ → SAState → Nat → Nat → SAState × Nat × Nat
  | 0, _, s, iters, improvements => (s, iters, improvements)
  | levels + 1, temperature, s, iters, improvements =>
    let inner := (List.range config.iterationsPerT).foldl
      (fun acc i =>
        let r := saStep rooms constraints cliqueConflicts temperature
          acc.1 acc.2 (tape (iters + i))
        (r.1, r.2))
      (s, improvements)
    saLoop rooms constraints cliqueConflicts config tape levels
      (temperature * config.coolingRate) inner.1
      (iters + config.iterationsPerT) inner.2

/-- SimulatedAnnealing, from simulated_annealing.go lines 59-177: builds the
indices, runs the annealing loop, and reports the final metrics.  Returns the
final activities array alongside the SAResult (the Go function mutates the
caller's slice). -/
def SimulatedAnnealing (activities : List Activity) (rooms : List Room)
    (config : SAConfig) (prerequisites : List (String × List String))
    (planLocations : PlanLocations) (electives : List String)
    (constraints : RoomConstraints) (levels : Nat) (tape : Nat → SADraw) :
    List Activity × SAResult :=
  let prereqPairs := buildPrereqPairs prerequisites activities
  let cliqueConflicts := buildCliqueMap activities planLocations electives
  let initialCost := calculateTotalCostWithRooms activities prereqPairs
  let s0 : SAState := ⟨activities, buildBlockOccupancy activities,
    buildRoomBlockOccupancy activities⟩
  let r := saLoop rooms constraints cliqueConflicts config tape levels
    config.initialTemp s0 0 0
  let finalActs := r.1.acts
  (finalActs,
   { initialCost := initialCost
     finalCost := calculateTotalCostWithRooms finalActs prereqPairs
     iterations := r.2.1
     improvements := r.2.2
     mirrorPenalty := calculateMirrorPenalty finalActs
     wednesdayBonus := calculateWednesdayBonus finalActs
     prereqBonus := calculatePrereqBonus finalActs prereqPairs
     roomConsistency := calculateRoomConsistency finalActs
     daySeparation := calculateDaySeparationMetric finalActs })

/-! ## Conflict graph (internal/graph, unnamed/part_015) -/

/-- ConflictGraph: live vertices (the Go map id -> *Activity, in insertion
order) and the symmetric adjacency, stored as the list of directed pairs
(both directions are inserted by AddEdge). -/
structure ConflictGraph where
  verts : List Activity
  adj : List (Nat × Nat)
deriving DecidableEq, Repr, Inhabited

/-- HasEdge, from the graph package. -/
def HasEdge (g : ConflictGraph) (id1 id2 : Nat) : Bool :=
  g.adj.any (fun e => e.1 == id1 && e.2 == id2)

/-- areConflicting, from unnamed/part_015 lines 104-117. -/
def areConflicting (a1 a2 : Activity) : Bool :=
  SharesTeacher a1 a2 || SharesSection a1 a2

/-- All ordered index pairs (i < j) of a list, in the order of the Go double
loop. -/
def allPairs {α : Type} : List α → List (α × α)
  | [] => []
  | x :: xs => xs.map (fun y => (x, y)) ++ allPairs xs

/-- BuildFromActivities, from unnamed/part_015 lines 79-102: every activity is
a vertex; an edge joins every pair with areConflicting, in both directions. -/
def BuildFromActivities (activities : List Activity) : ConflictGraph :=
  { verts := activities
    adj := ((allPairs activities).filter (fun p => areConflicting p.1 p.2)).flatMap
      (fun p => [(p.1.id, p.2.id), (p.2.id, p.1.id)]) }

/-! ## Integrated constructive scheduler (unnamed/part_000) -/

/-- RoomAssignment, from unnamed/part_005. -/
structure RoomAssignment where
  roomCode : String
  activities : List Activity
  capacity : Int
  used : Int
deriving DecidableEq, Repr, Inhabited

/-- Period, from unnamed/part_000. -/
structure Period where
  number : Int
  block : Int
  assignments : List RoomAssignment
  unassigned : List Activity
deriving DecidableEq, Repr, Inhabited

/-- TimetableResult, from unnamed/part_000. -/
structure TimetableResult where
  periods : List Period
  finalDUD : List Activity
  totalPeriods : Nat
deriving DecidableEq, Repr, Inhabited

/-- GetRoomsByType, from unnamed/part_005. -/
def GetRoomsByType (rooms : List Room) (roomType : RoomType) : List Room :=
  rooms.filter (fun r => r.rtype == roomType)

/-- The candidate-set test of the constructive packer and of selectValidRoom:
whitelisted rooms when an explicit (course, type) whitelist exists, otherwise
rooms of the matching type. -/
def candidateRoomOK (constraints : RoomConstraints) (a : Activity) (r : Room) :
    Bool :=
  match GetAllowedRooms constraints a.courseCode (eventTypeToString a.type) with
  | some codes => containsStr codes r.code
  | none =>
    if a.type = EventCategory.LAB then r.rtype == RoomType.lab
    else r.rtype == RoomType.classroom

/-- The per-activity packing loop of assignRoomsToPeriodWithConstraints
(unnamed/part_000 lines 97-174): process the activities in order, carrying the
room codes already used this period; filter the rooms to the available
candidates, sort ascending by capacity (sort.Slice; since the comparator is a
strict order on capacities, any ascending order yields the same capacity-value
facts), and take the first with enough capacity. -/
def assignSeq (rooms : List Room) (constraints : RoomConstraints) :
    List Activity → List String → List RoomAssignment × List Activity
  | [], _ => ([], [])
  | a :: rest, used =>
    let availableRooms := rooms.filter (fun r =>
      !(used.contains r.code) && candidateRoomOK constraints a r)
    let sorted := availableRooms.insertionSort (fun r1 r2 => r1.capacity ≤ r2.capacity)
    match sorted.find? (fun r => decide (a.students ≤ r.capacity)) with
    | some room =>
      let r := assignSeq rooms constraints rest (room.code :: used)
      ({ roomCode := room.code
         activities := [{ a with room := room.code }]
         capacity := room.capacity
         used := a.students } :: r.1, r.2)
    | none =>
      let r := assignSeq rooms constraints rest used
      (r.1, a :: r.2)

/-- assignRoomsToPeriodWithConstraints, from unnamed/part_000 lines 97-174. -/
def assignRoomsToPeriodWithConstraints (activities : List Activity)
    (rooms : List Room) (constraints : RoomConstraints) (periodNum : Int) :
    Period :=
  let r := assignSeq rooms constraints activities []
  { number := periodNum
    block := Int.tmod periodNum TotalBlocks
    assignments := r.1
    unassigned := r.2 }

/-- Degree of a live vertex: the number of live neighbours. -/
def degreeG (g : ConflictGraph) (id : Nat) : Nat :=
  (g.verts.filter (fun v => v.id != id && HasEdge g id v.id)).length

/-- First element maximizing a measure (later elements replace only on a
strictly larger value, matching the Go max-scan idiom). -/
def argmaxBy {α : Type} (f : α → Nat) : List α → Option α
  | [] => none
  | x :: xs =>
    match argmaxBy f xs with
    | none => some x
    | some y => if f y > f x then some y else some x

/-- Common neighbours of a candidate with the already-chosen set. -/
def commonNeighborCount (g : ConflictGraph) (chosen : List Nat) (v : Nat) : Nat :=
  (g.verts.filter (fun w =>
    HasEdge g v w.id && chosen.any (fun s => HasEdge g s w.id))).length

/-- Modelled from the spec: the maximum-independent-set heuristic
`findMaxIndependentSet` (spec §4.3.1) is called by the integrated scheduler
but its Go definition is not among the provided sources.  Following the
spec's words: start from the vertex of maximum degree; repeatedly add the
non-adjacent candidate maximizing the common-neighbour count, breaking ties
by higher degree (which subsumes the stated fallback to the non-adjacent
vertex of maximum degree when no candidate has common neighbours); stop when
no non-adjacent candidate remains.  Ties pick the earliest vertex in
insertion order (one faithful instance of Go's unspecified map order). -/
def growIndependentSet (g : ConflictGraph) :
    Nat → List Nat → List Nat
  | 0, chosen => chosen
  | fuel + 1, chosen =>
    let candidates := g.verts.filter (fun v =>
      !(chosen.contains v.id) && chosen.all (fun s => !(HasEdge g s v.id)))
    match argmaxBy (fun v =>
        commonNeighborCount g chosen v.id * (g.verts.length + 1) + degreeG g v.id)
        candidates with
    | none => chosen
    | some best => growIndependentSet g fuel (chosen ++ [best.id])

/-- Modelled from the spec: `findMaxIndependentSet` (§4.3.1), see
growIndependentSet.  The lexicographic (commonNeighbours, degree) maximum is
encoded by the padded measure used there. -/
def findMaxIndependentSet (g : ConflictGraph) : List Nat :=
  match argmaxBy (fun v => degreeG g v.id) g.verts with
  | none => []
  | some v0 => growIndependentSet g g.verts.length [v0.id]

/-- Modelled from the spec: `removeVertex` (design note §9: deletion is an id
removal plus a sweep of the neighbours' adjacency sets); its Go definition is
not among the provided sources. -/
def removeVertex (g : ConflictGraph) (id : Nat) : ConflictGraph :=
  { verts := g.verts.filter (fun v => v.id != id)
    adj := g.adj.filter (fun e => e.1 != id && e.2 != id) }

/-- One period's committed activity ids: each successfully assigned activity
is removed from the graph and given the current block. -/
def periodAssignedIds (p : Period) : List Nat :=
  p.assignments.flatMap (fun ra => ra.activities.map (fun a => a.id))

/-- Room assigned to a given id in a period, if any. -/
def periodRoomOf (p : Period) (id : Nat) : Option String :=
  (p.assignments.find? (fun ra => ra.activities.any (fun a => a.id == id))).map
    (fun ra => ra.roomCode)

/-- The main loop of IntegratedSchedulerWithConstraints (unnamed/part_000
lines 38-76): while vertices remain and blockNum < 35, skip the protected
block, extract an independent set, pack rooms, commit the successful
assignments (set block and room on the master array, delete the vertices),
and advance the block counter.  Fuel bounds the recursion; blockNum strictly
increases, so TotalBlocks + 1 steps suffice from blockNum = 0. -/
def schedulerLoop (rooms : List Room) (constraints : RoomConstraints) :
    Nat → Int → ConflictGraph → List Activity → List Period →
    List Period × ConflictGraph × List Activity
  | 0, _, g, master, acc => (acc.reverse, g, master)
  | fuel + 1, blockNum, g, master, acc =>
    if g.verts.length = 0 ∨ TotalBlocks ≤ blockNum then (acc.reverse, g, master)
    else if IsProtectedBlock blockNum then
      schedulerLoop rooms constraints fuel (blockNum + 1) g master acc
    else
      let colorSet := findMaxIndependentSet g
      if colorSet.length = 0 then (acc.reverse, g, master)
      else
        let periodActivities := colorSet.filterMap
          (fun id => g.verts.find? (fun v => v.id == id))
        let period := assignRoomsToPeriodWithConstraints periodActivities rooms
          constraints blockNum
        let assigned := periodAssignedIds period
        let g2 := assigned.foldl (fun h id => removeVertex h id) g
        let master2 := master.map (fun m =>
          match periodRoomOf period m.id with
          | some rc => { m with block := blockNum, room := rc }
          | none => m)
        schedulerLoop rooms constraints fuel (blockNum + 1) g2 master2
          (period :: acc)

/-- Result of the integrated scheduler together with the final master
activities array (the Go code mutates the array through the graph's
pointers). -/
structure SchedulerOutcome where
  result : TimetableResult
  finalActs : List Activity
deriving DecidableEq, Repr, Inhabited

/-- IntegratedSchedulerWithConstraints, from unnamed/part_000 lines 28-88.
The graph comes pre-built (with cliques) from the caller; rooms are re-ordered
classrooms-then-labs. -/
def IntegratedSchedulerWithConstraints (activities : List Activity)
    (G : ConflictGraph) (rooms : List Room) (constraints : RoomConstraints) :
    SchedulerOutcome :=
  let classrooms := GetRoomsByType rooms RoomType.classroom
  let labs := GetRoomsByType rooms RoomType.lab
  let allRooms := classrooms ++ labs
  let r := schedulerLoop allRooms constraints (TotalBlocks.toNat + 1) 0 G
    activities []
  { result :=
      { periods := r.1
        finalDUD := r.2.1.verts
        totalPeriods := r.1.length }
    finalActs := r.2.2 }

/-! ## Specification-side definitions

The following definitions transcribe the claims' wording (not the Go code);
they are compared with the code-derived definitions above. -/

/-- The rejection condition of the SA block-move hard-constraint check as the
claim states it: different days, day overflow, protected block inside the
interval, a room-block cell held by a different activity, or an overlapping
activity sharing a teacher, a section, or a curriculum-clique link. -/
def blockMoveViolation (activity : Activity) (block : Int) (room : String)
    (blockOcc : Int → List Activity)
    (roomBlockOcc : String → Int → Option Activity)
    (clique : String → String → Bool) : Prop :=
  Int.tdiv block BlocksPerDay ≠ Int.tdiv (block + activity.duration - 1) BlocksPerDay
  ∨ Int.tmod block BlocksPerDay + activity.duration > BlocksPerDay
  ∨ (block ≤ 16 ∧ 16 < block + activity.duration)
  ∨ (∃ k : Int, 0 ≤ k ∧ k < activity.duration ∧
      ∃ ex : Activity, roomBlockOcc room (block + k) = some ex ∧ ex.id ≠ activity.id)
  ∨ (∃ k : Int, 0 ≤ k ∧ k < activity.duration ∧
      ∃ other ∈ blockOcc (block + k), other.id ≠ activity.id ∧
        (SharesTeacher activity other = true ∨ SharesSection activity other = true ∨
         clique activity.courseCode other.courseCode = true))

/-- First-occurrence deduplication (the order in which the Go counted-set
loops first meet each sibling group). -/
def dedupFirst {α : Type} [DecidableEq α] : List α → List α
  | [] => []
  | x :: xs => x :: (dedupFirst xs).filter (fun y => !(y == x))

/-- The sibling-group ids contributing to the lecture cost, in first-lecture
order: groups of activities of type lecture with a non-empty id. -/
def catGidList (l : List Activity) : List String :=
  l.filterMap (fun a =>
    if a.siblingGroupID ≠ "" ∧ a.type = EventCategory.CAT then some a.siblingGroupID
    else none)

/-- The claim's per-pair lecture term: +50 for a slot-of-day mismatch, +30 for
a room mismatch, plus the day-separation table for the group size (all three
conditions are symmetric in the pair). -/
def claimPairTerm (groupSize : Nat) (a b : Activity) : Int :=
  (if (blockToDaySlot b.block).2 ≠ (blockToDaySlot a.block).2 then (50 : Int) else 0) +
  (if b.room ≠ a.room then (30 : Int) else 0) +
  daySeparationCost groupSize (absInt ((blockToDaySlot b.block).1 - (blockToDaySlot a.block).1))

/-- The claim's reference group cost, as literally stated: the pair terms
range over every distinct pair of lecture siblings, and every lecture sibling
sharing a day with a tutorial sibling of the group adds +35. -/
def claimGroupCostAllPairs (activities : List Activity) (gid : String) : Int :=
  let sibs := buildSiblingIndex activities gid
  let catSibs := sibs.filter (fun sib => sib.type == EventCategory.CAT)
  ((allPairs catSibs).map (fun p => claimPairTerm catSibs.length p.1 p.2)).sum
  + (catSibs.map (fun cat =>
      (sibs.map (fun sib =>
        if sib.type = EventCategory.AY ∧
            (blockToDaySlot cat.block).1 = (blockToDaySlot sib.block).1
        then (35 : Int) else 0)).sum)).sum

/-- The claim's reference total: group terms over every distinct sibling
group, +10 per tutorial not on day 2, -15 per prerequisite pair on equal
blocks. -/
def claimTotalCostAllPairs (activities : List Activity)
    (prereqPairs : List PrereqPair) : Int :=
  ((dedupFirst (catGidList activities)).map
    (fun gid => claimGroupCostAllPairs activities gid)).sum
  + (activities.map (fun a =>
      if a.type = EventCategory.AY ∧ (blockToDaySlot a.block).1 ≠ 2
      then (10 : Int) else 0)).sum
  + (prereqPairs.map (fun p =>
      if (derefAct activities p.1).block = (derefAct activities p.2).block
      then (-15 : Int) else 0)).sum

/-- The amended reference group cost: pair terms compare each later lecture
sibling against the first lecture sibling only, and a group with fewer than
two lecture siblings contributes nothing at all. -/
def refGroupCost (activities : List Activity) (gid : String) : Int :=
  let sibs := buildSiblingIndex activities gid
  let catSibs := sibs.filter (fun sib => sib.type == EventCategory.CAT)
  if 2 ≤ catSibs.length then
    (catSibs.tail.map (fun cj =>
      claimPairTerm catSibs.length catSibs.headI cj)).sum
    + (catSibs.map (fun cat =>
        (sibs.map (fun sib =>
          if sib.type = EventCategory.AY ∧
              (blockToDaySlot cat.block).1 = (blockToDaySlot sib.block).1
          then (35 : Int) else 0)).sum)).sum
  else 0

/-- The amended reference total soft cost. -/
def refTotalCost (activities : List Activity) (prereqPairs : List PrereqPair) :
    Int :=
  ((dedupFirst (catGidList activities)).map
    (fun gid => refGroupCost activities gid)).sum
  + (activities.map (fun a =>
      if a.type = EventCategory.AY ∧ (blockToDaySlot a.block).1 ≠ 2
      then (10 : Int) else 0)).sum
  + (prereqPairs.map (fun p =>
      if (derefAct activities p.1).block = (derefAct activities p.2).block
      then (-15 : Int) else 0)).sum

/-- The lecture-pair portion of activityCostForBlockAndRoom (the terms that a
sum over all activities counts once per ordered pair, i.e. twice per
unordered pair). -/
def activityCatPairPart (activities : List Activity) (activity : Activity) : Int :=
  if activity.siblingGroupID ≠ "" ∧ activity.type = EventCategory.CAT then
    let sibs := buildSiblingIndex activities activity.siblingGroupID
    let catSibs := sibs.filter (fun sib => sib.type == EventCategory.CAT)
    (catSibs.map (fun sib =>
      if sib.id = activity.id then 0
      else claimPairTerm catSibs.length activity sib)).sum
  else 0

/-- The decomposed total of claim C7: the per-activity contributions summed
over all activities at their current blocks and rooms, with the double-counted
lecture pair terms symmetrized (half of their total removed, leaving each
unordered pair once), plus the prerequisite co-location term.  The pair-part
total is even whenever it is double-counted, so integer halving is exact. -/
def decomposedTotalCost (activities : List Activity)
    (prereqPairs : List PrereqPair) : Int :=
  (activities.map (fun a =>
    activityCostForBlockAndRoom activities a a.block a.room)).sum
  - (activities.map (fun a => activityCatPairPart activities a)).sum / 2
  + (prereqPairs.map (fun p =>
      if (derefAct activities p.1).block = (derefAct activities p.2).block
      then (-15 : Int) else 0)).sum

/-! ## Concrete example inputs used by witnesses and counterexamples -/

/-- A fully unassigned multi-block activity (the SA input state the DUD
activities arrive in: block -1, empty room). -/
def exUnassigned : Activity :=
  { id := 0, code := "A0", courseCode := "CBF1000", courseName := "",
    type := EventCategory.LAB, eventNumber := 1, sections := [1], students := 20,
    teacherNames := ["T"], duration := 2, siblingGroupID := "", block := -1,
    room := "" }

/-- An assigned single-block activity sharing a teacher with exUnassigned. -/
def exAssigned : Activity :=
  { id := 1, code := "A1", courseCode := "CIT2000", courseName := "",
    type := EventCategory.CAT, eventNumber := 1, sections := [2], students := 20,
    teacherNames := ["T"], duration := 1, siblingGroupID := "", block := 5,
    room := "R1" }

/-- A classroom used by several witnesses. -/
def exRoom : Room := { code := "R1", capacity := 100, rtype := RoomType.classroom }

/-- A concrete random draw proposing a room move. -/
def exDraw : SADraw :=
  { actIdx := 0, moveType := 1, newBlockDraw := 0, roomPick := 0,
    accept := fun _ _ => false }

/-- A laboratory activity whose (course, type) has an explicit whitelist
naming the classroom exRoom. -/
def exLab : Activity :=
  { id := 7, code := "L1", courseCode := "CIT1000", courseName := "",
    type := EventCategory.LAB, eventNumber := 1, sections := [3], students := 15,
    teacherNames := ["U"], duration := 1, siblingGroupID := "", block := 0,
    room := "" }

/-- Room constraints whitelisting the classroom R1 for CIT1000 labs. -/
def exCons : RoomConstraints := [("CIT1000", [("LABORATORIO", ["R1"])])]

/-- The room assignment produced for exAssigned when packing it alone with
exRoom available. -/
def exRA : RoomAssignment :=
  ⟨"R1", [{ exAssigned with room := "R1" }], 100, 20⟩

/-- Sixteen pairwise conflict-free duration-2 activities: with a single room
the constructive scheduler packs exactly one per period, so one of them is
committed at block 15 and, being two blocks long, spans the protected
block 16.  (The same happens under any tie-breaking order of the
independent-set heuristic, because every one of these activities has
duration 2.) -/
def pbActs : List Activity :=
  (List.range 16).map (fun i =>
    { id := i, code := "", courseCode := "c" ++ toString i, courseName := "",
      type := EventCategory.CAT, eventNumber := 1, sections := [], students := 10,
      teacherNames := [], duration := 2, siblingGroupID := "", block := -1,
      room := "" })

/-- The single room of the protected-block scenario. -/
def pbRooms : List Room := [exRoom]

/-- The (edgeless) conflict graph of the protected-block scenario. -/
def pbGraph : ConflictGraph := BuildFromActivities pbActs

/-- Helper building a lecture sibling of group "G" at a given block. -/
def mkCatSib (i : Nat) (b : Int) : Activity :=
  { id := i, code := "", courseCode := "MAT1000", courseName := "",
    type := EventCategory.CAT, eventNumber := 1, sections := [1], students := 30,
    teacherNames := ["P"], duration := 1, siblingGroupID := "G", block := b,
    room := "R" }

/-- Three lecture siblings on days 0, 1 and 2, identical slot and room: the
code charges the day-separation term only for the pairs (first, j), the
claim's reference charges it for every distinct pair. -/
def c6Acts : List Activity := [mkCatSib 0 0, mkCatSib 1 7, mkCatSib 2 14]

/-- A tutorial sibling of group "G" on day 0 (same day as mkCatSib 0 0). -/
def c7Ay : Activity :=
  { id := 9, code := "", courseCode := "MAT1000", courseName := "",
    type := EventCategory.AY, eventNumber := 1, sections := [1], students := 30,
    teacherNames := ["P"], duration := 1, siblingGroupID := "G", block := 1,
    room := "R" }

/-- A single lecture plus a same-day tutorial in one sibling group: the global
cost skips the group entirely (fewer than two lecture siblings) while the
per-activity sum still charges the lecture/tutorial same-day term and there
are no pair terms to symmetrize. -/
def c7Acts : List Activity := [mkCatSib 0 0, c7Ay]

/-! ## Lemmas about the occupancy builders -/

/-- Membership condition of an activity span. -/
def inSpan (a : Activity) (b : Int) : Prop :=
  a.block ≤ b ∧ b ≤ a.block + normDur a.duration - 1

instance (a : Activity) (b : Int) : Decidable (inSpan a b) := by
  unfold inSpan; infer_instance

instance : IsTotal Room (fun r1 r2 => r1.capacity ≤ r2.capacity) :=
  ⟨fun a b => le_total a.capacity b.capacity⟩

instance : IsTrans Room (fun r1 r2 => r1.capacity ≤ r2.capacity) :=
  ⟨fun _ _ _ h1 h2 => le_trans h1 h2⟩

theorem buildBlockOccupancy_go (acts : List Activity)
    (occ : Int → List Activity) (b : Int) :
    (acts.foldl
      (fun occ a => fun b =>
        if a.block ≤ b ∧ b ≤ a.block + normDur a.duration - 1 then occ b ++ [a]
        else occ b)
      occ) b
    = occ b ++ (acts.filter (fun a => decide (inSpan a b))) := by
  induction acts generalizing occ with
  | nil => simp
  | cons a rest ih =>
    simp only [List.foldl_cons, ih, List.filter_cons]
    by_cases h : a.block ≤ b ∧ b ≤ a.block + normDur a.duration - 1
    · simp [inSpan, h]
    · simp [inSpan, h]

theorem mem_buildBlockOccupancy (acts : List Activity) (a : Activity) (b : Int)
    (ha : a ∈ acts) (h : inSpan a b) :
    a ∈ buildBlockOccupancy acts b := by
  unfold buildBlockOccupancy
  rw [buildBlockOccupancy_go]
  simp only [List.mem_append, List.mem_filter]
  exact Or.inr ⟨ha, by simpa using h⟩

theorem buildRoomBlockOccupancy_preserve (acts : List Activity)
    (occ : String → Int → Option Activity) (r : String) (b : Int)
    (h : (occ r b).isSome = true) :
    ((acts.foldl
      (fun occ a => fun r b =>
        if r = a.room ∧ a.block ≤ b ∧ b ≤ a.block + normDur a.duration - 1
        then some a else occ r b)
      occ) r b).isSome = true := by
  induction acts generalizing occ with
  | nil => exact h
  | cons a rest ih =>
    simp only [List.foldl_cons]
    apply ih
    by_cases hc : r = a.room ∧ a.block ≤ b ∧ b ≤ a.block + normDur a.duration - 1
    · simp [hc]
    · simpa [hc] using h

theorem buildRoomBlockOccupancy_establish (acts : List Activity)
    (occ : String → Int → Option Activity) (a : Activity)
    (b : Int) (ha : a ∈ acts) (h : inSpan a b) :
    ((acts.foldl
      (fun occ a => fun r b =>
        if r = a.room ∧ a.block ≤ b ∧ b ≤ a.block + normDur a.duration - 1
        then some a else occ r b)
      occ) a.room b).isSome = true := by
  induction acts generalizing occ with
  | nil => cases ha
  | cons x rest ih =>
    simp only [List.foldl_cons]
    rcases List.mem_cons.mp ha with rfl | hmem
    · apply buildRoomBlockOccupancy_preserve
      obtain ⟨h1, h2⟩ := h
      simp [h1, h2]
    · exact ih _ hmem

theorem buildRoomBlockOccupancy_isSome (acts : List Activity) (a : Activity)
    (b : Int) (ha : a ∈ acts) (h : inSpan a b) :
    ((buildRoomBlockOccupancy acts) a.room b).isSome = true :=
  buildRoomBlockOccupancy_establish acts _ a b ha h

/-! ## Lemmas for the hard-constraint characterization -/

theorem range_any_int_iff (n : Nat) (f : Int → Bool) :
    ((List.range n).any (fun i => f (i : Int)) = true) ↔
      ∃ k : Int, 0 ≤ k ∧ k < (n : Int) ∧ f k = true := by
  rw [List.any_eq_true]
  constructor
  · rintro ⟨i, hi, hf⟩
    exact ⟨(i : Int), by positivity, by exact_mod_cast List.mem_range.mp hi, hf⟩
  · rintro ⟨k, hk0, hkn, hf⟩
    refine ⟨k.toNat, List.mem_range.mpr (by omega), ?_⟩
    rwa [Int.toNat_of_nonneg hk0]

theorem occupiesProtectedBlock_iff (b d : Int) (hd : 1 ≤ d) :
    OccupiesProtectedBlock b d = true ↔ b ≤ 16 ∧ 16 < b + d := by
  unfold OccupiesProtectedBlock normDur ProtectedWednesdayBlock
  have h : ¬ d < 1 := by omega
  simp only [h, if_false]
  constructor
  · intro hocc
    rw [Bool.and_eq_true, decide_eq_true_eq, decide_eq_true_eq] at hocc
    omega
  · intro hc
    rw [Bool.and_eq_true, decide_eq_true_eq, decide_eq_true_eq]
    omega

/-- Claim C10: the SA occupancy-index builders register an activity at every
block of [Block, Block + Duration) without requiring Block ≥ 0, so an
unassigned activity (Block = -1, Room = "") of duration d ≥ 2 is recorded as
occupying blocks -1 through d-2, including real block 0, in both indices; as
a consequence, any other single-block activity sharing a teacher with it is
reported by the hard-constraint check as conflicting at block 0. -/
theorem claim_C10_unassigned_occupancy (activities : List Activity)
    (a : Activity) (clique : String → String → Bool)
    (ha : a ∈ activities) (hb : a.block = -1) (hd : 2 ≤ a.duration) :
    (∀ b : Int, -1 ≤ b → b ≤ a.duration - 2 → a ∈ buildBlockOccupancy activities b)
    ∧ a ∈ buildBlockOccupancy activities 0
    ∧ ((buildRoomBlockOccupancy activities) a.room 0).isSome = true
    ∧ (∀ other : Activity, other.duration = 1 → other.id ≠ a.id →
        SharesTeacher other a = true →
        hasConflictInBlockWithRoom other 0 other.room
          (buildBlockOccupancy activities) (buildRoomBlockOccupancy activities)
          clique = true) := by
  have hnd : normDur a.duration = a.duration := by
    unfold normDur
    omega
  refine ⟨?_, ?_, ?_, ?_⟩
  · intro b h1 h2
    exact mem_buildBlockOccupancy _ _ _ ha ⟨by omega, by rw [hnd]; omega⟩
  · exact mem_buildBlockOccupancy _ _ _ ha ⟨by omega, by rw [hnd]; omega⟩
  · exact buildRoomBlockOccupancy_isSome _ _ _ ha ⟨by omega, by rw [hnd]; omega⟩
  · intro other hdur hid hshare
    have hmem : a ∈ buildBlockOccupancy activities 0 :=
      mem_buildBlockOccupancy _ _ _ ha ⟨by omega, by rw [hnd]; omega⟩
    unfold hasConflictInBlockWithRoom
    rw [hdur]
    simp only [normDur, BlocksPerDay, OccupiesProtectedBlock,
      ProtectedWednesdayBlock]
    norm_num
    exact Or.inr ⟨a, hmem, Ne.symm hid, Or.inl (Or.inl hshare)⟩

/-- Witness for claim C10's theorem at a concrete input. -/
theorem claim_C10_witness :
    exUnassigned ∈ buildBlockOccupancy [exUnassigned, exAssigned] 0
    ∧ hasConflictInBlockWithRoom exAssigned 0 exAssigned.room
        (buildBlockOccupancy [exUnassigned, exAssigned])
        (buildRoomBlockOccupancy [exUnassigned, exAssigned])
        (fun _ _ => false) = true := by
  have h := claim_C10_unassigned_occupancy [exUnassigned, exAssigned]
    exUnassigned (fun _ _ => false) (by simp) (by decide) (by decide)
  exact ⟨h.2.1, h.2.2.2 exAssigned (by decide) (by decide) (by decide)⟩

theorem range_all_int_iff (n : Nat) (f : Int → Bool) :
    ((List.range n).all (fun i => f (i : Int)) = true) ↔
      ∀ k : Int, 0 ≤ k → k < (n : Int) → f k = true := by
  rw [List.all_eq_true]
  constructor
  · intro h k hk0 hkn
    have := h k.toNat (List.mem_range.mpr (by omega))
    rwa [Int.toNat_of_nonneg hk0] at this
  · intro h i hi
    exact h (i : Int) (by positivity) (by exact_mod_cast List.mem_range.mp hi)

/-- Membership characterization of the valid-room list of selectValidRoom. -/
theorem selectValidRoom_mem (activity : Activity) (block : Int)
    (rooms : List Room) (constraints : RoomConstraints)
    (roomBlockOcc : String → Int → Option Activity) (pick : Nat)
    (h : selectValidRoom activity block rooms constraints roomBlockOcc pick ≠ "") :
    ∃ r ∈ rooms,
      r.code = selectValidRoom activity block rooms constraints roomBlockOcc pick
      ∧ (∀ k : Int, 0 ≤ k → k < normDur activity.duration →
          ∀ ex : Activity, roomBlockOcc r.code (block + k) = some ex →
            ex.id = activity.id)
      ∧ candidateRoomOK constraints activity r = true
      ∧ activity.students ≤ r.capacity := by
  unfold selectValidRoom at h ⊢
  set p : Room → Bool := fun room =>
    ((List.range (normDur activity.duration).toNat).all (fun d =>
      match roomBlockOcc room.code (block + (d : Int)) with
      | some existing => existing.id == activity.id
      | none => true))
    &&
    (match GetAllowedRooms constraints activity.courseCode
        (eventTypeToString activity.type) with
     | some codes => containsStr codes room.code
     | none =>
       if activity.type = EventCategory.LAB then room.rtype == RoomType.lab
       else room.rtype == RoomType.classroom)
    && decide (activity.students ≤ room.capacity) with hp
  by_cases hempty : ((rooms.filter p).map (fun r => r.code)).isEmpty
  · simp only [hempty, if_true] at h
    exact absurd rfl h
  · simp only [hempty, if_false] at h ⊢
    set l := (rooms.filter p).map (fun r => r.code) with hl
    have hlen : 0 < l.length := by
      rcases l with _ | _
      · simp at hempty
      · simp
    have hmem : l.getD (pick % l.length) "" ∈ l := by
      rw [List.getD_eq_getElem?_getD]
      rw [List.getElem?_eq_getElem (by exact Nat.mod_lt _ hlen)]
      exact List.getElem_mem _
    rw [hl, List.mem_map] at hmem
    obtain ⟨r, hrmem, hrcode⟩ := hmem
    rw [List.mem_filter] at hrmem
    refine ⟨r, hrmem.1, hrcode, ?_, ?_, ?_⟩
    · have hall := hrmem.2
      rw [hp] at hall
      rw [Bool.and_eq_true, Bool.and_eq_true] at hall
      have h1 := (range_all_int_iff (normDur activity.duration).toNat
        (fun k : Int =>
          match roomBlockOcc r.code (block + k) with
          | some existing => existing.id == activity.id
          | none => true)).mp hall.1.1
      intro k hk0 hkd ex hex
      have hk := h1 k hk0 (by omega)
      rw [hex] at hk
      simpa using hk
    · have hall := hrmem.2
      rw [hp] at hall
      rw [Bool.and_eq_true, Bool.and_eq_true] at hall
      exact hall.1.2
    · have hall := hrmem.2
      rw [hp] at hall
      rw [Bool.and_eq_true, Bool.and_eq_true] at hall
      simpa using hall.2

/-- Claim C2: the SA block-move hard-constraint check rejects a proposed
(block, duration, room) if and only if: the start and end blocks fall on
different days; or block mod 7 + duration > 7; or the interval contains the
protected block 16; or some cell (room, block + k), k < duration, is held by
a different activity; or some other activity overlapping the interval shares
a teacher, shares a section, or is clique-linked to the moved activity. -/
theorem claim_C2_hard_constraint_iff (activity : Activity) (block : Int)
    (room : String) (blockOcc : Int → List Activity)
    (roomBlockOcc : String → Int → Option Activity)
    (clique : String → String → Bool) (hd : 1 ≤ activity.duration) :
    hasConflictInBlockWithRoom activity block room blockOcc roomBlockOcc clique
      = true
    ↔ blockMoveViolation activity block room blockOcc roomBlockOcc clique := by
  have hnd : normDur activity.duration = activity.duration := by
    unfold normDur
    omega
  unfold hasConflictInBlockWithRoom blockMoveViolation
  rw [hnd]
  by_cases h1 : Int.tdiv block BlocksPerDay
      ≠ Int.tdiv (block + activity.duration - 1) BlocksPerDay
  · simp [h1]
  · rw [if_neg h1]
    by_cases h2 : Int.tmod block BlocksPerDay + activity.duration > BlocksPerDay
    · simp [h1, h2]
    · rw [if_neg h2]
      by_cases h3 : block ≤ 16 ∧ 16 < block + activity.duration
      · rw [if_pos ((occupiesProtectedBlock_iff block activity.duration hd).mpr h3)]
        simp [h3]
      · rw [if_neg (fun hc =>
          h3 ((occupiesProtectedBlock_iff block activity.duration hd).mp hc))]
        have hrange := range_any_int_iff activity.duration.toNat (fun k =>
          (match roomBlockOcc room (block + k) with
           | some existing => existing.id != activity.id
           | none => false)
          ||
          (blockOcc (block + k)).any (fun other =>
            other.id != activity.id &&
            (SharesTeacher activity other || SharesSection activity other ||
              clique activity.courseCode other.courseCode)))
        rw [hrange]
        have hcast : ((activity.duration.toNat : Int)) = activity.duration := by
          omega
        rw [hcast]
        constructor
        · rintro ⟨k, hk0, hkd, hf⟩
          rw [Bool.or_eq_true] at hf
          rcases hf with hf | hf
          · refine Or.inr (Or.inr (Or.inr (Or.inl ⟨k, hk0, hkd, ?_⟩)))
            rcases hex : roomBlockOcc room (block + k) with _ | ex
            · rw [hex] at hf
              simp at hf
            · rw [hex] at hf
              simp only [bne_iff_ne] at hf
              exact ⟨ex, rfl, hf⟩
          · refine Or.inr (Or.inr (Or.inr (Or.inr ⟨k, hk0, hkd, ?_⟩)))
            rw [List.any_eq_true] at hf
            obtain ⟨other, hmem, hprop⟩ := hf
            rw [Bool.and_eq_true, bne_iff_ne, Bool.or_eq_true, Bool.or_eq_true]
              at hprop
            exact ⟨other, hmem, hprop.1, by tauto⟩
        · rintro (hc | hc | hc | hc | hc)
          · exact absurd hc h1
          · exact absurd hc h2
          · exact absurd hc h3
          · obtain ⟨k, hk0, hkd, ex, hex, hne⟩ := hc
            refine ⟨k, hk0, hkd, ?_⟩
            rw [Bool.or_eq_true]
            left
            rw [hex]
            simpa using hne
          · obtain ⟨k, hk0, hkd, other, hmem, hne, hshare⟩ := hc
            refine ⟨k, hk0, hkd, ?_⟩
            rw [Bool.or_eq_true]
            right
            rw [List.any_eq_true]
            refine ⟨other, hmem, ?_⟩
            rw [Bool.and_eq_true, bne_iff_ne, Bool.or_eq_true, Bool.or_eq_true]
            exact ⟨hne, by tauto⟩

/-- Witness for claim C2's theorem: a duration-2 proposal at block 15 with an
empty occupancy is rejected exactly because it spans the protected block. -/
theorem claim_C2_witness :
    hasConflictInBlockWithRoom exUnassigned 15 "R1" (fun _ => [])
      (fun _ _ => none) (fun _ _ => false) = true
    ∧ blockMoveViolation exUnassigned 15 "R1" (fun _ => [])
      (fun _ _ => none) (fun _ _ => false) := by
  have h := claim_C2_hard_constraint_iff exUnassigned 15 "R1" (fun _ => [])
    (fun _ _ => none) (fun _ _ => false) (by decide)
  have hv : blockMoveViolation exUnassigned 15 "R1" (fun _ => [])
      (fun _ _ => none) (fun _ _ => false) := by
    refine Or.inr (Or.inr (Or.inl ?_))
    constructor <;> decide
  exact ⟨h.mpr hv, hv⟩

/-- Claim C5: a simulated-annealing room move only ever selects a room that
satisfies the whitelist-or-type restriction, has enough capacity, and is free
(up to the activity itself) in every one of the activity's duration blocks;
and the proposal is rejected with the state unchanged when the valid set is
empty or the selected room equals the current room. -/
theorem claim_C5_room_move (rooms : List Room) (constraints : RoomConstraints)
    (clique : String → String → Bool) (temperature : ℚ) (s : SAState)
    (improvements : Nat) (draw : SADraw) :
    (∀ (activity : Activity) (block : Int) (pick : Nat),
      selectValidRoom activity block rooms constraints s.roomBlockOcc pick ≠ "" →
      ∃ r ∈ rooms,
        r.code = selectValidRoom activity block rooms constraints s.roomBlockOcc pick
        ∧ (∀ k : Int, 0 ≤ k → k < normDur activity.duration →
            ∀ ex : Activity, s.roomBlockOcc r.code (block + k) = some ex →
              ex.id = activity.id)
        ∧ candidateRoomOK constraints activity r = true
        ∧ activity.students ≤ r.capacity)
    ∧ (draw.moveType % 2 = 1 →
       (selectValidRoom (s.acts.getD (draw.actIdx % s.acts.length) default)
          (s.acts.getD (draw.actIdx % s.acts.length) default).block rooms
          constraints s.roomBlockOcc draw.roomPick = ""
        ∨ selectValidRoom (s.acts.getD (draw.actIdx % s.acts.length) default)
            (s.acts.getD (draw.actIdx % s.acts.length) default).block rooms
            constraints s.roomBlockOcc draw.roomPick
          = (s.acts.getD (draw.actIdx % s.acts.length) default).room) →
       saStep rooms constraints clique temperature s improvements draw
         = (s, improvements)) := by
  constructor
  · intro activity block pick h
    exact selectValidRoom_mem activity block rooms constraints s.roomBlockOcc pick h
  · intro hmove hsel
    unfold saStep
    by_cases hlen : s.acts.length = 0
    · rw [if_pos hlen]
    · rw [if_neg hlen, if_neg (by omega)]
      simp only
      rw [if_pos hsel]

/-- Witness for claim C5's theorem: with one matching classroom the selection
returns it, and a draw whose selection equals the current room leaves the
state untouched. -/
theorem claim_C5_witness :
    (∃ r ∈ [exRoom],
      r.code = selectValidRoom exAssigned 5 [exRoom] [] (fun _ _ => none) 0
      ∧ (∀ k : Int, 0 ≤ k → k < normDur exAssigned.duration →
          ∀ ex : Activity, (fun (_ : String) (_ : Int) => (none : Option Activity))
            r.code (5 + k) = some ex → ex.id = exAssigned.id)
      ∧ candidateRoomOK [] exAssigned r = true
      ∧ exAssigned.students ≤ r.capacity)
    ∧ saStep [exRoom] [] (fun _ _ => false) 1
        ⟨[exAssigned], fun _ => [], fun _ _ => none⟩ 0 exDraw
      = (⟨[exAssigned], fun _ => [], fun _ _ => none⟩, 0) := by
  have h := claim_C5_room_move [exRoom] [] (fun _ _ => false) 1
    ⟨[exAssigned], fun _ => [], fun _ _ => none⟩ 0 exDraw
  exact ⟨h.1 exAssigned 5 0 (by decide), h.2 (by decide) (by decide)⟩

/-- Every room passing selectValidRoom's filter is reachable by some random
pick. -/
theorem selectValidRoom_picks (activity : Activity) (block : Int)
    (rooms : List Room) (constraints : RoomConstraints)
    (roomBlockOcc : String → Int → Option Activity) (r : Room)
    (hmem : r ∈ rooms)
    (hfree : (List.range (normDur activity.duration).toNat).all (fun d =>
      match roomBlockOcc r.code (block + (d : Int)) with
      | some existing => existing.id == activity.id
      | none => true) = true)
    (hallow : (match GetAllowedRooms constraints activity.courseCode
        (eventTypeToString activity.type) with
      | some codes => containsStr codes r.code
      | none =>
        if activity.type = EventCategory.LAB then r.rtype == RoomType.lab
        else r.rtype == RoomType.classroom) = true)
    (hcap : activity.students ≤ r.capacity) :
    ∃ pick : Nat,
      selectValidRoom activity block rooms constraints roomBlockOcc pick
        = r.code := by
  unfold selectValidRoom
  simp only []
  set p : Room → Bool := fun room =>
    ((List.range (normDur activity.duration).toNat).all (fun d =>
      match roomBlockOcc room.code (block + (d : Int)) with
      | some existing => existing.id == activity.id
      | none => true))
    &&
    (match GetAllowedRooms constraints activity.courseCode
        (eventTypeToString activity.type) with
     | some codes => containsStr codes room.code
     | none =>
       if activity.type = EventCategory.LAB then room.rtype == RoomType.lab
       else room.rtype == RoomType.classroom)
    && decide (activity.students ≤ room.capacity) with hp
  have hpr : p r = true := by
    rw [hp]
    rw [Bool.and_eq_true, Bool.and_eq_true]
    exact ⟨⟨hfree, hallow⟩, by simpa using hcap⟩
  have hmemf : r.code ∈ (rooms.filter p).map (fun room => room.code) :=
    List.mem_map_of_mem _ (List.mem_filter.mpr ⟨hmem, hpr⟩)
  set l := (rooms.filter p).map (fun room => room.code) with hl
  obtain ⟨i, hi⟩ := List.mem_iff_getElem.mp hmemf
  obtain ⟨hilen, hival⟩ := hi
  refine ⟨i, ?_⟩
  have hne : l.isEmpty = false := by
    rcases hll : l with _ | _
    · rw [hll] at hmemf
      cases hmemf
    · simp
  rw [hne]
  simp only [Bool.false_eq_true, if_false]
  rw [Nat.mod_eq_of_lt hilen]
  rw [List.getD_eq_getElem?_getD, List.getElem?_eq_getElem hilen]
  exact hival

/-- Whitelisted fitting rooms get the head activity of the constructive
packing loop assigned, whatever their room type. -/
theorem assignSeq_head_whitelisted (rooms : List Room)
    (constraints : RoomConstraints) (a : Activity) (rest : List Activity)
    (used : List String) (codes : List String)
    (hw : GetAllowedRooms constraints a.courseCode (eventTypeToString a.type)
      = some codes)
    (r : Room) (hr : r ∈ rooms) (hused : used.contains r.code = false)
    (hcode : containsStr codes r.code = true) (hcap : a.students ≤ r.capacity) :
    ∃ ra : RoomAssignment,
      ((assignSeq rooms constraints (a :: rest) used).1).head? = some ra
      ∧ ra.activities = [{ a with room := ra.roomCode }]
      ∧ containsStr codes ra.roomCode = true := by
  unfold assignSeq
  simp only []
  set availableRooms := rooms.filter (fun room =>
    !(used.contains room.code) && candidateRoomOK constraints a room) with hav
  set sorted := availableRooms.insertionSort
    (fun r1 r2 => r1.capacity ≤ r2.capacity) with hsort
  have hmemav : r ∈ availableRooms := by
    rw [hav, List.mem_filter]
    refine ⟨hr, ?_⟩
    rw [Bool.and_eq_true]
    constructor
    · rw [hused]
      rfl
    · unfold candidateRoomOK
      rw [hw]
      exact hcode
  have hmemsort : r ∈ sorted := by
    rw [hsort]
    exact ((List.perm_insertionSort _ _).mem_iff).mpr hmemav
  have hfind : (sorted.find? (fun room => decide (a.students ≤ room.capacity))).isSome
      = true :=
    List.find?_isSome.mpr ⟨r, hmemsort, by simpa using hcap⟩
  rcases hfound : sorted.find? (fun room => decide (a.students ≤ room.capacity))
    with _ | room₀
  · rw [hfound] at hfind
    cases hfind
  · have hmem₀ : room₀ ∈ availableRooms := by
      have := List.mem_of_find?_eq_some hfound
      rw [hsort] at this
      exact ((List.perm_insertionSort _ _).mem_iff).mp this
    have hcand₀ : candidateRoomOK constraints a room₀ = true := by
      rw [hav, List.mem_filter, Bool.and_eq_true] at hmem₀
      exact hmem₀.2.2
    refine ⟨⟨room₀.code, [{ a with room := room₀.code }], room₀.capacity,
      a.students⟩, ?_, rfl, ?_⟩
    · rw [hfound]
      rfl
    · unfold candidateRoomOK at hcand₀
      rw [hw] at hcand₀
      exact hcand₀

/-- Claim C9 (implicit): an explicit whitelist entry for (course, type) makes
both the SA room move and the constructive packer skip the room-type
restriction entirely — any whitelisted, free, large-enough room is
selectable, even with mismatched type — while the lab-room/classroom rule is
applied only when GetAllowedRooms returns none. -/
theorem claim_C9_whitelist_overrides_type (rooms : List Room)
    (constraints : RoomConstraints) (activity : Activity) (block : Int)
    (roomBlockOcc : String → Int → Option Activity) :
    (∀ (codes : List String) (r : Room),
      GetAllowedRooms constraints activity.courseCode
        (eventTypeToString activity.type) = some codes →
      r ∈ rooms →
      (∀ k : Int, 0 ≤ k → k < normDur activity.duration →
        roomBlockOcc r.code (block + k) = none) →
      containsStr codes r.code = true →
      activity.students ≤ r.capacity →
      ∃ pick : Nat,
        selectValidRoom activity block rooms constraints roomBlockOcc pick
          = r.code)
    ∧ (GetAllowedRooms constraints activity.courseCode
        (eventTypeToString activity.type) = none →
      ∀ pick : Nat,
        selectValidRoom activity block rooms constraints roomBlockOcc pick ≠ "" →
        ∃ r ∈ rooms,
          r.code = selectValidRoom activity block rooms constraints roomBlockOcc pick
          ∧ (if activity.type = EventCategory.LAB then r.rtype = RoomType.lab
             else r.rtype = RoomType.classroom))
    ∧ (∀ (codes : List String) (rest : List Activity) (used : List String)
        (r : Room),
      GetAllowedRooms constraints activity.courseCode
        (eventTypeToString activity.type) = some codes →
      r ∈ rooms → used.contains r.code = false →
      containsStr codes r.code = true → activity.students ≤ r.capacity →
      ∃ ra : RoomAssignment,
        ((assignSeq rooms constraints (activity :: rest) used).1).head? = some ra
        ∧ ra.activities = [{ activity with room := ra.roomCode }]
        ∧ containsStr codes ra.roomCode = true) := by
  refine ⟨?_, ?_, ?_⟩
  · intro codes r hw hr hfree hcode hcap
    apply selectValidRoom_picks activity block rooms constraints roomBlockOcc r hr
    · rw [List.all_eq_true]
      intro i hi
      have h2 : i < (normDur activity.duration).toNat := List.mem_range.mp hi
      have := hfree (i : Int) (by positivity) (by omega)
      simp [this]
    · rw [hw]
      exact hcode
    · exact hcap
  · intro hnone pick hne
    obtain ⟨r, hr, hcode, _, hcand, _⟩ :=
      selectValidRoom_mem activity block rooms constraints roomBlockOcc pick hne
    refine ⟨r, hr, hcode, ?_⟩
    unfold candidateRoomOK at hcand
    rw [hnone] at hcand
    by_cases ht : activity.type = EventCategory.LAB
    · rw [if_pos ht] at hcand ⊢
      simpa using hcand
    · rw [if_neg ht] at hcand ⊢
      simpa using hcand
  · intro codes rest used r hw hr hused hcode hcap
    exact assignSeq_head_whitelisted rooms constraints activity rest used codes
      hw r hr hused hcode hcap

/-- Witness for claim C9's theorem: the lab activity exLab, whose whitelist
names only the classroom R1, can be given R1 by the SA room move and is
packed into R1 by the constructive loop. -/
theorem claim_C9_witness :
    (∃ pick : Nat,
      selectValidRoom exLab 0 [exRoom] exCons (fun _ _ => none) pick = "R1")
    ∧ (∃ ra : RoomAssignment,
        ((assignSeq [exRoom] exCons [exLab] []).1).head? = some ra
        ∧ ra.activities = [{ exLab with room := ra.roomCode }]
        ∧ containsStr ["R1"] ra.roomCode = true) := by
  have h := claim_C9_whitelist_overrides_type [exRoom] exCons exLab 0
    (fun _ _ => none)
  constructor
  · have := h.1 ["R1"] exRoom (by decide) (by simp) (fun _ _ _ => rfl)
      (by decide) (by decide)
    simpa using this
  · exact h.2.2 ["R1"] [] [] exRoom (by decide) (by simp) (by decide)
      (by decide) (by decide)

/-! ## Lemmas for the conflict-graph characterization -/

theorem allPairs_sub {α : Type} (l : List α) (p : α × α)
    (h : p ∈ allPairs l) : p.1 ∈ l ∧ p.2 ∈ l := by
  induction l with
  | nil => cases h
  | cons x xs ih =>
    unfold allPairs at h
    rw [List.mem_append] at h
    rcases h with h | h
    · rw [List.mem_map] at h
      obtain ⟨y, hy, hp⟩ := h
      rw [← hp]
      exact ⟨List.mem_cons_self _ _, List.mem_cons_of_mem _ hy⟩
    · obtain ⟨h1, h2⟩ := ih h
      exact ⟨List.mem_cons_of_mem _ h1, List.mem_cons_of_mem _ h2⟩

theorem mem_allPairs_of_mem {α : Type} (l : List α) (a b : α)
    (ha : a ∈ l) (hb : b ∈ l) (hab : a ≠ b) :
    (a, b) ∈ allPairs l ∨ (b, a) ∈ allPairs l := by
  induction l with
  | nil => cases ha
  | cons x xs ih =>
    unfold allPairs
    rcases List.mem_cons.mp ha with rfl | ha2
    · left
      rw [List.mem_append, List.mem_map]
      exact Or.inl ⟨b, List.mem_cons.mp hb |>.resolve_left (fun h => hab h.symm), rfl⟩
    · rcases List.mem_cons.mp hb with rfl | hb2
      · right
        rw [List.mem_append, List.mem_map]
        exact Or.inl ⟨a, ha2, rfl⟩
      · rcases ih ha2 hb2 with h | h
        · left
          rw [List.mem_append]
          exact Or.inr h
        · right
          rw [List.mem_append]
          exact Or.inr h

theorem sharesTeacher_symm (a b : Activity) :
    SharesTeacher a b = SharesTeacher b a := by
  unfold SharesTeacher HasTeacher
  rw [Bool.eq_iff_iff]
  simp only [List.any_eq_true, beq_iff_eq]
  constructor
  · rintro ⟨t, ht, t2, ht2, he⟩
    exact ⟨t2, ht2, t, ht, he.symm⟩
  · rintro ⟨t, ht, t2, ht2, he⟩
    exact ⟨t2, ht2, t, ht, he.symm⟩

theorem sharesSection_symm (a b : Activity) :
    SharesSection a b = SharesSection b a := by
  unfold SharesSection
  by_cases hc : a.courseCode = b.courseCode
  · rw [if_neg (by simp [hc]), if_neg (by simp [hc])]
    rw [Bool.eq_iff_iff]
    simp only [List.any_eq_true, beq_iff_eq]
    constructor
    · rintro ⟨s, hs, s2, hs2, he⟩
      exact ⟨s2, hs2, s, hs, he.symm⟩
    · rintro ⟨s, hs, s2, hs2, he⟩
      exact ⟨s2, hs2, s, hs, he.symm⟩
  · rw [if_pos (by simpa using hc), if_pos (by simp; exact fun h => hc h.symm)]

theorem areConflicting_symm (a b : Activity) :
    areConflicting a b = areConflicting b a := by
  unfold areConflicting
  rw [sharesTeacher_symm, sharesSection_symm]

/-- Claim C3: the pairwise conflict-graph builder connects two activities iff
they share a teacher name, or share a section id within the same course; in
particular two activities of different courses with intersecting section
lists and no common teacher are never connected. -/
theorem claim_C3_pairwise_edges (activities : List Activity)
    (hnodup : (activities.map (fun a => a.id)).Nodup)
    (a b : Activity) (ha : a ∈ activities) (hb : b ∈ activities)
    (hab : a.id ≠ b.id) :
    (HasEdge (BuildFromActivities activities) a.id b.id = true
      ↔ (SharesTeacher a b = true ∨ SharesSection a b = true))
    ∧ (a.courseCode ≠ b.courseCode → SharesTeacher a b = false →
        HasEdge (BuildFromActivities activities) a.id b.id = false) := by
  have hinj := List.inj_on_of_nodup_map hnodup
  have hiff : HasEdge (BuildFromActivities activities) a.id b.id = true
      ↔ (SharesTeacher a b = true ∨ SharesSection a b = true) := by
    unfold HasEdge BuildFromActivities
    simp only [List.any_eq_true, List.mem_flatMap, List.mem_filter]
    constructor
    · rintro ⟨e, ⟨p, ⟨hpairs, hconf⟩, hpe⟩, he⟩
      rw [Bool.and_eq_true, beq_iff_eq, beq_iff_eq] at he
      obtain ⟨hp1, hp2⟩ := allPairs_sub activities p hpairs
      have hids : (p.1.id = a.id ∧ p.2.id = b.id) ∨ (p.1.id = b.id ∧ p.2.id = a.id) := by
        rcases List.mem_cons.mp hpe with rfl | hpe2
        · exact Or.inl ⟨he.1, he.2⟩
        · rcases List.mem_cons.mp hpe2 with rfl | hpe3
          · exact Or.inr ⟨he.2, he.1⟩
          · cases hpe3
      rcases hids with ⟨h1, h2⟩ | ⟨h1, h2⟩
      · have : p.1 = a := hinj hp1 ha h1
        have hb' : p.2 = b := hinj hp2 hb h2
        rw [this, hb'] at hconf
        unfold areConflicting at hconf
        rw [Bool.or_eq_true] at hconf
        exact hconf
      · have : p.1 = b := hinj hp1 hb h1
        have hb' : p.2 = a := hinj hp2 ha h2
        rw [this, hb'] at hconf
        rw [areConflicting_symm] at hconf
        unfold areConflicting at hconf
        rw [Bool.or_eq_true] at hconf
        exact hconf
    · intro hconf
      have hconfb : areConflicting a b = true := by
        unfold areConflicting
        rw [Bool.or_eq_true]
        exact hconf
      have hne : a ≠ b := fun h => hab (by rw [h])
      rcases mem_allPairs_of_mem activities a b ha hb hne with hmem | hmem
      · refine ⟨(a.id, b.id), ⟨(a, b), ⟨hmem, hconfb⟩, ?_⟩, ?_⟩
        · exact List.mem_cons_self _ _
        · simp
      · refine ⟨(a.id, b.id), ⟨(b, a), ⟨hmem, ?_⟩, ?_⟩, ?_⟩
        · rw [areConflicting_symm]
          exact hconfb
        · exact List.mem_cons_of_mem _ (List.mem_cons_self _ _)
        · simp
  refine ⟨hiff, ?_⟩
  intro hcourse hteach
  rw [← Bool.not_eq_true]
  intro hedge
  rcases hiff.mp hedge with h | h
  · rw [hteach] at h
    cases h
  · unfold SharesSection at h
    rw [if_pos (by simpa using hcourse)] at h
    cases h

/-- Witness for claim C3's theorem: two same-course activities sharing section
1 are connected; exUnassigned and exAssigned (different courses, same section
numbers never overlap, no common teacher name requirement violated) are
checked through the iff. -/
theorem claim_C3_witness :
    HasEdge (BuildFromActivities [exUnassigned, exAssigned]) exUnassigned.id
      exAssigned.id = true := by
  have h := claim_C3_pairwise_edges [exUnassigned, exAssigned] (by decide)
    exUnassigned exAssigned (by simp) (by simp) (by decide)
  exact h.1.mpr (Or.inl (by decide))

/-! ## Lemmas for the constructive best-fit packer -/

theorem find?_min_capacity (st : Int) (l : List Room) (x : Room)
    (hs : l.Sorted (fun r1 r2 => r1.capacity ≤ r2.capacity))
    (hf : l.find? (fun r => decide (st ≤ r.capacity)) = some x) :
    ∀ y ∈ l, st ≤ y.capacity → x.capacity ≤ y.capacity := by
  induction l with
  | nil => cases hf
  | cons z zs ih =>
    rw [List.sorted_cons] at hs
    rw [List.find?_cons] at hf
    by_cases hz : st ≤ z.capacity
    · rw [decide_eq_true hz] at hf
      obtain rfl : z = x := by simpa using hf
      intro y hy _
      rcases List.mem_cons.mp hy with rfl | hy2
      · exact le_refl _
      · exact hs.1 y hy2
    · rw [decide_eq_false hz] at hf
      simp only [] at hf
      intro y hy hyc
      rcases List.mem_cons.mp hy with rfl | hy2
      · exact absurd hyc hz
      · exact ih hs.2 hf y hy2 hyc

/-- Properties of the room found by the packer for one activity: it is a
candidate, unused, fits, and has minimum capacity among the qualifying
rooms. -/
theorem assignSeq_found_props (rooms : List Room) (constraints : RoomConstraints)
    (a : Activity) (used : List String) (room₀ : Room)
    (hf : ((rooms.filter (fun r =>
        !(used.contains r.code) && candidateRoomOK constraints a r)).insertionSort
        (fun r1 r2 => r1.capacity ≤ r2.capacity)).find?
        (fun r => decide (a.students ≤ r.capacity)) = some room₀) :
    room₀ ∈ rooms ∧ used.contains room₀.code = false
    ∧ candidateRoomOK constraints a room₀ = true
    ∧ a.students ≤ room₀.capacity
    ∧ (∀ r' ∈ rooms, candidateRoomOK constraints a r' = true →
        used.contains r'.code = false → a.students ≤ r'.capacity →
        room₀.capacity ≤ r'.capacity) := by
  set availableRooms := rooms.filter (fun r =>
    !(used.contains r.code) && candidateRoomOK constraints a r) with hav
  set sorted := availableRooms.insertionSort
    (fun r1 r2 => r1.capacity ≤ r2.capacity) with hsort
  have hperm : sorted.Perm availableRooms := List.perm_insertionSort _ _
  have hmem₀ : room₀ ∈ availableRooms :=
    hperm.mem_iff.mp (List.mem_of_find?_eq_some hf)
  have hfits : a.students ≤ room₀.capacity := by
    have := List.find?_some hf
    simpa using this
  rw [hav, List.mem_filter, Bool.and_eq_true] at hmem₀
  refine ⟨hmem₀.1, ?_, hmem₀.2.2, hfits, ?_⟩
  · have := hmem₀.2.1
    rcases hcu : used.contains room₀.code with _ | _
    · rfl
    · rw [hcu] at this
      cases this
  · intro r' hr' hcand hunused hfits'
    have hmem' : r' ∈ sorted := by
      apply hperm.mem_iff.mpr
      rw [hav, List.mem_filter, Bool.and_eq_true]
      exact ⟨hr', by rw [hunused]; rfl, hcand⟩
    exact find?_min_capacity a.students sorted room₀
      (by rw [hsort]; exact List.sorted_insertionSort _ _) hf r' hmem' hfits'

/-- Soundness of every assignment the packer makes, relative to its prefix of
earlier assignments in the same period. -/
theorem assignSeq_assignments_sound (rooms : List Room)
    (constraints : RoomConstraints) :
    ∀ (pending : List Activity) (used : List String)
      (pre : List RoomAssignment) (ra : RoomAssignment)
      (post : List RoomAssignment),
    (assignSeq rooms constraints pending used).1 = pre ++ ra :: post →
    ∃ a r, r ∈ rooms
      ∧ ra.roomCode = r.code ∧ ra.capacity = r.capacity
      ∧ ra.activities = [{ a with room := r.code }] ∧ ra.used = a.students
      ∧ candidateRoomOK constraints a r = true
      ∧ used.contains r.code = false
      ∧ r.code ∉ pre.map (fun x => x.roomCode)
      ∧ a.students ≤ r.capacity
      ∧ (∀ r' ∈ rooms, candidateRoomOK constraints a r' = true →
          used.contains r'.code = false →
          r'.code ∉ pre.map (fun x => x.roomCode) →
          a.students ≤ r'.capacity → r.capacity ≤ r'.capacity)
  | [], used, pre, ra, post => by
    intro h
    unfold assignSeq at h
    simp at h
  | a :: rest, used, pre, ra, post => by
    intro h
    unfold assignSeq at h
    simp only [] at h
    rcases hfind : ((rooms.filter (fun r =>
        !(used.contains r.code) && candidateRoomOK constraints a r)).insertionSort
        (fun r1 r2 => r1.capacity ≤ r2.capacity)).find?
        (fun r => decide (a.students ≤ r.capacity)) with _ | room₀
    · rw [hfind] at h
      simp only [] at h
      exact assignSeq_assignments_sound rooms constraints rest used pre ra post h
    · rw [hfind] at h
      simp only [] at h
      obtain ⟨hp, hu, hcand, hfits, hmin⟩ :=
        assignSeq_found_props rooms constraints a used room₀ hfind
      rcases pre with _ | ⟨ra₀, pre'⟩
      · rw [List.nil_append] at h
        have hra : ra = ⟨room₀.code, [{ a with room := room₀.code }],
            room₀.capacity, a.students⟩ := by
          have := congrArg (fun l => l.head?) h
          simpa using this.symm
        refine ⟨a, room₀, hp, ?_, ?_, ?_, ?_, hcand, hu, by simp, hfits, ?_⟩
        · rw [hra]
        · rw [hra]
        · rw [hra]
        · rw [hra]
        · intro r' hr' hcand' hu' _ hfits'
          exact hmin r' hr' hcand' hu' hfits'
      · rw [List.cons_append] at h
        have htl : (assignSeq rooms constraints rest (room₀.code :: used)).1
            = pre' ++ ra :: post := by
          have := congrArg (fun l => l.tail) h
          simpa using this
        obtain ⟨a', r', hr', h1, h2, h3, h4, h5, h6, h7, h8, h9⟩ :=
          assignSeq_assignments_sound rooms constraints rest (room₀.code :: used)
            pre' ra post htl
        have hhd : ra₀ = ⟨room₀.code, [{ a with room := room₀.code }],
            room₀.capacity, a.students⟩ := by
          have := congrArg (fun l => l.head?) h
          simpa using this.symm
        have h6' : (r'.code == room₀.code || used.contains r'.code) = false := by
          simpa [List.contains_cons] using h6
        rw [Bool.or_eq_false_iff] at h6'
        refine ⟨a', r', hr', h1, h2, h3, h4, h5, h6'.2, ?_, h8, ?_⟩
        · rw [List.map_cons, hhd]
          simp only [List.mem_cons]
          rintro (hc | hc)
          · exact absurd (by simpa using hc) (by simpa using h6'.1)
          · exact h7 hc
        · intro r'' hr'' hcand'' hu'' hpre'' hfits''
          rw [List.map_cons, hhd] at hpre''
          simp only [List.mem_cons] at hpre''
          push_neg at hpre''
          apply h9 r'' hr'' hcand''
          · rw [List.contains_cons, Bool.or_eq_false_iff]
            refine ⟨?_, hu''⟩
            simpa using hpre''.1
          · exact hpre''.2
          · exact hfits''

/-- The packer never reuses a room: every assigned room code is fresh with
respect to the incoming used set, and the assigned codes are pairwise
distinct. -/
theorem assignSeq_rooms_fresh (rooms : List Room)
    (constraints : RoomConstraints) :
    ∀ (pending : List Activity) (used : List String),
    (∀ rc ∈ ((assignSeq rooms constraints pending used).1).map
        (fun x => x.roomCode), used.contains rc = false)
    ∧ (((assignSeq rooms constraints pending used).1).map
        (fun x => x.roomCode)).Nodup
  | [], used => by
    constructor
    · intro rc hrc
      simp [assignSeq] at hrc
    · simp [assignSeq]
  | a :: rest, used => by
    unfold assignSeq
    simp only []
    rcases hfind : ((rooms.filter (fun r =>
        !(used.contains r.code) && candidateRoomOK constraints a r)).insertionSort
        (fun r1 r2 => r1.capacity ≤ r2.capacity)).find?
        (fun r => decide (a.students ≤ r.capacity)) with _ | room₀
    · rw [hfind]
      exact assignSeq_rooms_fresh rooms constraints rest used
    · rw [hfind]
      simp only []
      obtain ⟨_, hu, _, _, _⟩ :=
        assignSeq_found_props rooms constraints a used room₀ hfind
      have IH := assignSeq_rooms_fresh rooms constraints rest (room₀.code :: used)
      have hfresh : ∀ rc ∈ ((assignSeq rooms constraints rest
          (room₀.code :: used)).1).map (fun x => x.roomCode),
          rc ≠ room₀.code ∧ used.contains rc = false := by
        intro rc hrc
        have := IH.1 rc hrc
        rw [List.contains_cons, Bool.or_eq_false_iff] at this
        exact ⟨by simpa using this.1, this.2⟩
      constructor
      · intro rc hrc
        rw [List.map_cons, List.mem_cons] at hrc
        rcases hrc with rfl | hrc2
        · exact hu
        · exact (hfresh rc hrc2).2
      · rw [List.map_cons, List.nodup_cons]
        exact ⟨fun hc => (hfresh _ hc).1 rfl, IH.2⟩

/-- Every activity the packer leaves unassigned had no qualifying room at its
turn: any candidate room with enough capacity is either in the incoming used
set or assigned to some activity of the period. -/
theorem assignSeq_dud (rooms : List Room) (constraints : RoomConstraints) :
    ∀ (pending : List Activity) (used : List String) (a : Activity),
    a ∈ (assignSeq rooms constraints pending used).2 →
    ∀ r ∈ rooms, candidateRoomOK constraints a r = true →
    a.students ≤ r.capacity →
    used.contains r.code = true
    ∨ r.code ∈ ((assignSeq rooms constraints pending used).1).map
        (fun x => x.roomCode)
  | [], used, a => by
    intro hmem
    simp [assignSeq] at hmem
  | a0 :: rest, used, a => by
    intro hmem r hr hcand hfits
    unfold assignSeq at hmem ⊢
    simp only [] at hmem ⊢
    rcases hfind : ((rooms.filter (fun r =>
        !(used.contains r.code) && candidateRoomOK constraints a0 r)).insertionSort
        (fun r1 r2 => r1.capacity ≤ r2.capacity)).find?
        (fun r => decide (a0.students ≤ r.capacity)) with _ | room₀
    · rw [hfind] at hmem ⊢
      simp only [] at hmem ⊢
      rcases List.mem_cons.mp hmem with rfl | hmem2
      · rcases hcu : used.contains r.code with _ | _
        · exfalso
          have hav : r ∈ rooms.filter (fun r' =>
              !(used.contains r'.code) && candidateRoomOK constraints a r') := by
            rw [List.mem_filter, Bool.and_eq_true]
            exact ⟨hr, by rw [hcu]; rfl, hcand⟩
          have hsome : (((rooms.filter (fun r' =>
              !(used.contains r'.code) && candidateRoomOK constraints a r')).insertionSort
              (fun r1 r2 => r1.capacity ≤ r2.capacity)).find?
              (fun r' => decide (a.students ≤ r'.capacity))).isSome = true :=
            List.find?_isSome.mpr ⟨r,
              (List.perm_insertionSort _ _).mem_iff.mpr hav, by simpa using hfits⟩
          rw [hfind] at hsome
          cases hsome
        · exact Or.inl rfl
      · exact assignSeq_dud rooms constraints rest used a hmem2 r hr hcand hfits
    · rw [hfind] at hmem ⊢
      simp only [] at hmem ⊢
      have IH := assignSeq_dud rooms constraints rest (room₀.code :: used) a
        hmem r hr hcand hfits
      rcases IH with hl | hrr
      · rw [List.contains_cons, Bool.or_eq_true] at hl
        rcases hl with he | hu2
        · exact Or.inr (List.mem_cons.mpr (Or.inl (by simpa using he)))
        · exact Or.inl hu2
      · exact Or.inr (List.mem_cons_of_mem _ hrr)

/-- Claim C4: in the constructive best-fit packing, every assigned activity
receives a room from its candidate set (whitelist-or-type), unused so far in
the period, with enough capacity, minimal among the still-available fitting
candidates; no two activities of a period share a room; and an activity left
unassigned had no qualifying candidate at its turn (every fitting candidate
was assigned within the period). -/
theorem claim_C4_best_fit_packing (activities : List Activity)
    (rooms : List Room) (constraints : RoomConstraints) (periodNum : Int) :
    (∀ pre ra post,
      (assignRoomsToPeriodWithConstraints activities rooms constraints
        periodNum).assignments = pre ++ ra :: post →
      ∃ a r, r ∈ rooms ∧ ra.roomCode = r.code ∧ ra.capacity = r.capacity
        ∧ ra.activities = [{ a with room := r.code }] ∧ ra.used = a.students
        ∧ candidateRoomOK constraints a r = true
        ∧ r.code ∉ pre.map (fun x => x.roomCode)
        ∧ a.students ≤ r.capacity
        ∧ (∀ r' ∈ rooms, candidateRoomOK constraints a r' = true →
            r'.code ∉ pre.map (fun x => x.roomCode) →
            a.students ≤ r'.capacity → r.capacity ≤ r'.capacity))
    ∧ ((assignRoomsToPeriodWithConstraints activities rooms constraints
        periodNum).assignments.map (fun x => x.roomCode)).Nodup
    ∧ (∀ a ∈ (assignRoomsToPeriodWithConstraints activities rooms constraints
        periodNum).unassigned,
        ∀ r ∈ rooms, candidateRoomOK constraints a r = true →
        a.students ≤ r.capacity →
        r.code ∈ (assignRoomsToPeriodWithConstraints activities rooms constraints
          periodNum).assignments.map (fun x => x.roomCode)) := by
  refine ⟨?_, ?_, ?_⟩
  · intro pre ra post h
    obtain ⟨a, r, hr, h1, h2, h3, h4, h5, _, h7, h8, h9⟩ :=
      assignSeq_assignments_sound rooms constraints activities [] pre ra post h
    refine ⟨a, r, hr, h1, h2, h3, h4, h5, h7, h8, ?_⟩
    intro r' hr' hcand' hpre' hfits'
    exact h9 r' hr' hcand' rfl hpre' hfits'
  · exact (assignSeq_rooms_fresh rooms constraints activities []).2
  · intro a hmem r hr hcand hfits
    rcases assignSeq_dud rooms constraints activities [] a hmem r hr hcand hfits
      with hl | hrr
    · cases hl
    · exact hrr

/-- Witness for claim C4's theorem at a concrete one-activity period. -/
theorem claim_C4_witness :
    ∃ a r, r ∈ [exRoom] ∧ exRA.roomCode = r.code ∧ exRA.capacity = r.capacity
      ∧ exRA.activities = [{ a with room := r.code }] ∧ exRA.used = a.students
      ∧ candidateRoomOK [] a r = true
      ∧ r.code ∉ ([] : List RoomAssignment).map (fun x => x.roomCode)
      ∧ a.students ≤ r.capacity
      ∧ (∀ r' ∈ [exRoom], candidateRoomOK [] a r' = true →
          r'.code ∉ ([] : List RoomAssignment).map (fun x => x.roomCode) →
          a.students ≤ r'.capacity → r.capacity ≤ r'.capacity) := by
  have h := claim_C4_best_fit_packing [exAssigned] [exRoom] [] 0
  exact h.1 [] exRA [] (by decide)

/-! ## Lemmas for the protected-block analysis -/

theorem normDur_idem (d : Int) : normDur (normDur d) = normDur d := by
  unfold normDur
  split_ifs <;> omega

theorem occupies_normDur (b d : Int) :
    OccupiesProtectedBlock b (normDur d) = OccupiesProtectedBlock b d := by
  unfold OccupiesProtectedBlock
  rw [normDur_idem]

/-- A passing hard-constraint check certifies that the proposed placement
avoids the protected block. -/
theorem hasConflict_false_protected (a : Activity) (block : Int) (room : String)
    (blockOcc : Int → List Activity)
    (roomBlockOcc : String → Int → Option Activity)
    (clique : String → String → Bool)
    (h : hasConflictInBlockWithRoom a block room blockOcc roomBlockOcc clique
      = false) :
    OccupiesProtectedBlock block a.duration = false := by
  unfold hasConflictInBlockWithRoom at h
  by_cases h1 : Int.tdiv block BlocksPerDay
      ≠ Int.tdiv (block + normDur a.duration - 1) BlocksPerDay
  · rw [if_pos h1] at h
    cases h
  · rw [if_neg h1] at h
    by_cases h2 : Int.tmod block BlocksPerDay + normDur a.duration > BlocksPerDay
    · rw [if_pos h2] at h
      cases h
    · rw [if_neg h2] at h
      by_cases h3 : OccupiesProtectedBlock block (normDur a.duration) = true
      · rw [if_pos h3] at h
        cases h
      · rw [← occupies_normDur]
        rcases hx : OccupiesProtectedBlock block (normDur a.duration) with _ | _
        · rfl
        · exact absurd hx h3

/-- Any activity whose block an accepted SA step changed satisfies the
protected-block check at its new position. -/
theorem saStep_changed_block_protected (rooms : List Room)
    (constraints : RoomConstraints) (clique : String → String → Bool)
    (temperature : ℚ) (s : SAState) (improvements : Nat) (draw : SADraw)
    (i : Nat)
    (hch : (((saStep rooms constraints clique temperature s improvements
        draw).1).acts.getD i default).block ≠ (s.acts.getD i default).block) :
    OccupiesProtectedBlock
      (((saStep rooms constraints clique temperature s improvements
        draw).1).acts.getD i default).block
      (((saStep rooms constraints clique temperature s improvements
        draw).1).acts.getD i default).duration = false := by
  unfold saStep at hch ⊢
  by_cases hlen : s.acts.length = 0
  · rw [if_pos hlen] at hch
    exact absurd rfl hch
  · rw [if_neg hlen] at hch ⊢
    simp only [] at hch ⊢
    set activity := s.acts.getD (draw.actIdx % s.acts.length) default with hact
    set newBlock : Int := ((draw.newBlockDraw % TotalBlocks.toNat : Nat) : Int)
      with hnb
    have hidx : draw.actIdx % s.acts.length < s.acts.length :=
      Nat.mod_lt _ (Nat.pos_of_ne_zero hlen)
    by_cases hmv : draw.moveType % 2 = 0
    · rw [if_pos hmv] at hch ⊢
      by_cases heq : newBlock = activity.block
      · rw [if_pos heq] at hch
        exact absurd rfl hch
      · rw [if_neg heq] at hch ⊢
        by_cases hconf : hasConflictInBlockWithRoom activity newBlock
            activity.room s.blockOcc s.roomBlockOcc clique = true
        · rw [if_pos hconf] at hch
          exact absurd rfl hch
        · rw [if_neg hconf] at hch ⊢
          have hcf : hasConflictInBlockWithRoom activity newBlock activity.room
              s.blockOcc s.roomBlockOcc clique = false :=
            Bool.eq_false_iff.mpr hconf
          set delta := activityCostForBlockAndRoom s.acts activity newBlock
              activity.room -
            activityCostForBlockAndRoom s.acts activity activity.block
              activity.room with hdelta
          by_cases hacc : delta < 0 ∨ draw.accept delta temperature = true
          · rw [if_pos hacc] at hch ⊢
            simp only [] at hch ⊢
            by_cases hi : i = draw.actIdx % s.acts.length
            · subst hi
              rw [List.getD_eq_getElem?_getD, List.getElem?_set_self hidx]
                at hch ⊢
              simp only [Option.getD_some] at hch ⊢
              exact hasConflict_false_protected activity newBlock activity.room
                s.blockOcc s.roomBlockOcc clique hcf
            · rw [List.getD_eq_getElem?_getD,
                List.getElem?_set_ne (fun hc => hi hc.symm)] at hch
              exact (hch (congrArg Activity.block
                (List.getD_eq_getElem?_getD s.acts i default).symm)).elim
          · rw [if_neg hacc] at hch
            exact absurd rfl hch
    · rw [if_neg hmv] at hch ⊢
      set nr := selectValidRoom activity activity.block rooms constraints
        s.roomBlockOcc draw.roomPick with hnr
      by_cases hsel : nr = "" ∨ nr = activity.room
      · rw [if_pos hsel] at hch
        exact absurd rfl hch
      · rw [if_neg hsel] at hch ⊢
        set delta2 := activityCostForBlockAndRoom s.acts activity activity.block
            nr -
          activityCostForBlockAndRoom s.acts activity activity.block
            activity.room with hd2
        by_cases hacc : delta2 < 0 ∨ draw.accept delta2 temperature = true
        · rw [if_pos hacc] at hch ⊢
          simp only [] at hch ⊢
          by_cases hi : i = draw.actIdx % s.acts.length
          · subst hi
            rw [List.getD_eq_getElem?_getD, List.getElem?_set_self hidx] at hch
            simp only [Option.getD_some] at hch
            exact absurd rfl hch
          · rw [List.getD_eq_getElem?_getD,
              List.getElem?_set_ne (fun hc => hi hc.symm)] at hch
            exact (hch (congrArg Activity.block
              (List.getD_eq_getElem?_getD s.acts i default).symm)).elim
        · rw [if_neg hacc] at hch
          exact absurd rfl hch

/-- Master activities keep non-16 blocks through the constructive loop: the
only block ever committed is the current blockNum, and the protected block is
skipped before any commit. -/
theorem schedulerLoop_no16 (rooms : List Room) (constraints : RoomConstraints) :
    ∀ (fuel : Nat) (blockNum : Int) (g : ConflictGraph)
      (master : List Activity) (acc : List Period),
    (∀ a ∈ master, a.block ≠ 16) →
    ∀ a ∈ (schedulerLoop rooms constraints fuel blockNum g master acc).2.2,
      a.block ≠ 16
  | 0, blockNum, g, master, acc => by
    intro h
    unfold schedulerLoop
    exact h
  | fuel + 1, blockNum, g, master, acc => by
    intro hmaster
    unfold schedulerLoop
    by_cases h1 : g.verts.length = 0 ∨ TotalBlocks ≤ blockNum
    · rw [if_pos h1]
      exact hmaster
    · rw [if_neg h1]
      by_cases h2 : IsProtectedBlock blockNum = true
      · rw [if_pos h2]
        exact schedulerLoop_no16 rooms constraints fuel (blockNum + 1) g master
          acc hmaster
      · rw [if_neg h2]
        simp only []
        by_cases h3 : (findMaxIndependentSet g).length = 0
        · rw [if_pos h3]
          exact hmaster
        · rw [if_neg h3]
          apply schedulerLoop_no16 rooms constraints fuel (blockNum + 1)
          intro a ha
          rw [List.mem_map] at ha
          obtain ⟨m, hm, rfl⟩ := ha
          have hbn : blockNum ≠ 16 := by
            unfold IsProtectedBlock ProtectedWednesdayBlock at h2
            simpa using h2
          rcases hrp : periodRoomOf (assignRoomsToPeriodWithConstraints
              ((findMaxIndependentSet g).filterMap
                (fun id => g.verts.find? (fun v => v.id == id)))
              rooms constraints blockNum) m.id with _ | rc
          · exact hmaster m hm
          · exact hbn

/-- Counterexample to claim C1 as stated: the constructive pipeline run on
sixteen conflict-free duration-2 activities with one room commits an activity
to block 15, whose two-block span contains the protected block 16. -/
theorem claim_C1_counterexample :
    ∃ a ∈ (IntegratedSchedulerWithConstraints pbActs pbGraph pbRooms
      []).finalActs,
      0 ≤ a.block ∧ OccupiesProtectedBlock a.block a.duration = true := by
  decide

/-- Claim C1 (amended): the constructive scheduler never assigns start block
16 (given inputs whose blocks are not 16, e.g. the unassigned -1), and any
SA step that changes an activity's block leaves it clear of the protected
block over its whole duration; the original claim fails because the
constructive phase is not duration-aware, so a multi-block activity started
at block 15 spans block 16. -/
theorem claim_C1_protected_block_amended (activities : List Activity)
    (G : ConflictGraph) (rooms : List Room) (constraints : RoomConstraints)
    (rooms' : List Room) (constraints' : RoomConstraints)
    (clique : String → String → Bool) (temperature : ℚ) (s : SAState)
    (improvements : Nat) (draw : SADraw) (i : Nat)
    (h0 : ∀ a ∈ activities, a.block ≠ 16) :
    (∀ a ∈ (IntegratedSchedulerWithConstraints activities G rooms
        constraints).finalActs, a.block ≠ 16)
    ∧ ((((saStep rooms' constraints' clique temperature s improvements
          draw).1).acts.getD i default).block ≠ (s.acts.getD i default).block →
        OccupiesProtectedBlock
          (((saStep rooms' constraints' clique temperature s improvements
            draw).1).acts.getD i default).block
          (((saStep rooms' constraints' clique temperature s improvements
            draw).1).acts.getD i default).duration = false) := by
  constructor
  · intro a ha
    exact schedulerLoop_no16 _ constraints (TotalBlocks.toNat + 1) 0 G
      activities [] h0 a ha
  · intro hch
    exact saStep_changed_block_protected rooms' constraints' clique temperature
      s improvements draw i hch

/-- Witness for the amended claim C1 at a concrete input. -/
theorem claim_C1_witness :
    (∀ a ∈ (IntegratedSchedulerWithConstraints pbActs pbGraph pbRooms
        []).finalActs, a.block ≠ 16)
    ∧ ((((saStep pbRooms [] (fun _ _ => false) 1
          ⟨[exAssigned], buildBlockOccupancy [exAssigned],
            buildRoomBlockOccupancy [exAssigned]⟩ 0 exDraw).1).acts.getD
            0 default).block ≠ (([exAssigned] : List Activity).getD 0
              default).block →
        OccupiesProtectedBlock
          (((saStep pbRooms [] (fun _ _ => false) 1
            ⟨[exAssigned], buildBlockOccupancy [exAssigned],
              buildRoomBlockOccupancy [exAssigned]⟩ 0 exDraw).1).acts.getD
              0 default).block
          (((saStep pbRooms [] (fun _ _ => false) 1
            ⟨[exAssigned], buildBlockOccupancy [exAssigned],
              buildRoomBlockOccupancy [exAssigned]⟩ 0 exDraw).1).acts.getD
              0 default).duration = false) :=
  claim_C1_protected_block_amended pbActs pbGraph pbRooms [] pbRooms []
    (fun _ _ => false) 1
    ⟨[exAssigned], buildBlockOccupancy [exAssigned],
      buildRoomBlockOccupancy [exAssigned]⟩ 0 exDraw 0 (by decide)

theorem absInt_comm (x y : Int) : absInt (x - y) = absInt (y - x) := by
  unfold absInt
  split_ifs <;> omega

/-- The counted-set loop of the lecture cost equals a sum over the
first-occurrence-deduplicated group list, excluding already-counted groups. -/
theorem catCostLoop_eq (acts : List Activity) :
    ∀ (l : List Activity) (counted : List String),
    catCostLoop acts l counted
      = (((dedupFirst (catGidList l)).filter
          (fun g => !(counted.contains g))).map
          (fun gid => catGroupCost acts gid)).sum
  | [], counted => by
    unfold catCostLoop catGidList dedupFirst
    simp
  | a :: l, counted => by
    by_cases htrig : a.siblingGroupID ≠ "" ∧ a.type = EventCategory.CAT
    · have hgl : catGidList (a :: l) = a.siblingGroupID :: catGidList l := by
        unfold catGidList
        rw [List.filterMap_cons, if_pos htrig]
      rw [hgl]
      unfold dedupFirst
      by_cases hc : counted.contains a.siblingGroupID = true
      · have hloop : catCostLoop acts (a :: l) counted
            = catCostLoop acts l counted := by
          simp only [catCostLoop]
          rw [if_pos (Or.inr (Or.inr hc))]
        rw [hloop, List.filter_cons]
        rw [if_neg (by rw [hc]; simp)]
        rw [List.filter_filter]
        rw [catCostLoop_eq acts l counted]
        congr 1
        apply congrArg
        apply List.filter_congr
        intro y _
        by_cases hy : y = a.siblingGroupID
        · subst hy
          rw [hc]
          simp
        · simp [hy]
      · have hcf : counted.contains a.siblingGroupID = false :=
          Bool.eq_false_iff.mpr hc
        have hloop : catCostLoop acts (a :: l) counted
            = catGroupCost acts a.siblingGroupID
              + catCostLoop acts l (a.siblingGroupID :: counted) := by
          simp only [catCostLoop]
          rw [if_neg (by
            intro hcond
            rcases hcond with h | h | h
            · exact htrig.1 h
            · exact h htrig.2
            · rw [hcf] at h
              cases h)]
        rw [hloop, List.filter_cons]
        rw [if_pos (by rw [hcf]; simp)]
        rw [List.map_cons, List.sum_cons]
        congr 1
        rw [List.filter_filter]
        rw [catCostLoop_eq acts l (a.siblingGroupID :: counted)]
        congr 1
        apply congrArg
        apply List.filter_congr
        intro y _
        rw [List.contains_cons]
        by_cases hy : y = a.siblingGroupID
        · subst hy
          simp
        · have hyb : (y == a.siblingGroupID) = false := by
            rw [beq_eq_false_iff_ne]
            exact hy
          rw [hyb]
          simp
    · have hgl : catGidList (a :: l) = catGidList l := by
        unfold catGidList
        rw [List.filterMap_cons, if_neg htrig]
      have hloop : catCostLoop acts (a :: l) counted
          = catCostLoop acts l counted := by
        simp only [catCostLoop]
        rw [if_pos (by
          rcases Decidable.em (a.siblingGroupID = "") with h | h
          · exact Or.inl h
          · rcases Decidable.em (a.type = EventCategory.CAT) with h2 | h2
            · exact absurd ⟨h, h2⟩ htrig
            · exact Or.inr (Or.inl h2))]
      rw [hloop, hgl]
      exact catCostLoop_eq acts l counted




/-- Each counted group contributes the same value in the loop form and in the
amended reference form (head-versus-rest pair terms). -/
theorem catGroupCost_eq_ref (acts : List Activity) (gid : String) :
    catGroupCost acts gid = refGroupCost acts gid := by
  unfold catGroupCost refGroupCost
  simp only []
  generalize (buildSiblingIndex acts gid).filter
      (fun sib => sib.type == EventCategory.CAT) = catSibs
  rcases catSibs with _ | ⟨c0, rest⟩
  · rw [if_neg (by simp)]
  · simp only []
    by_cases hlen : 2 ≤ (c0 :: rest).length
    · rw [if_pos hlen, if_neg (by omega)]
      simp only [List.headI_cons, List.tail_cons]
      rfl
    · rw [if_neg hlen, if_pos (by omega)]


/-- Counterexample to claim C6 as stated: with three lecture siblings on days
0, 1 and 2 (identical slot and room), the reference that charges every
distinct sibling pair gives 30, while the code charges only the pairs against
the first sibling, giving 15. -/
theorem claim_C6_counterexample :
    claimTotalCostAllPairs c6Acts [] ≠ calculateTotalCostWithRooms c6Acts [] := by
  decide

/-- Claim C6 (amended): the global soft cost equals the reference definition
in which, inside each sibling group with at least two lecture siblings, each
later lecture sibling is compared against the first lecture sibling only
(+50 slot mismatch, +30 room mismatch, day-separation table), +35 is charged
per (lecture, tutorial) same-day pair of the group, groups with fewer than
two lecture siblings contribute nothing, plus +10 per tutorial whose day is
not 2 and -15 per prerequisite pair with equal blocks. -/
theorem claim_C6_soft_cost_amended (activities : List Activity)
    (prereqPairs : List PrereqPair) :
    calculateTotalCostWithRooms activities prereqPairs
      = refTotalCost activities prereqPairs := by
  unfold calculateTotalCostWithRooms refTotalCost
  congr 1
  congr 1
  rw [catCostLoop_eq activities activities []]
  have hfilter : ((dedupFirst (catGidList activities)).filter
      (fun g => !(([] : List String).contains g)))
      = dedupFirst (catGidList activities) := by
    apply List.filter_eq_self.mpr
    intro y _
    rfl
  rw [hfilter]
  apply congrArg
  apply List.map_congr_left
  intro gid _
  exact catGroupCost_eq_ref activities gid


/-- Claim C7 is the spec's additive-decomposability law; the code violates
it.  At the failing input (one lecture and one same-day tutorial in a single
sibling group, no prerequisites), the symmetrized per-activity sum is 45 (the
lecture still charges the +35 same-day tutorial term and the tutorial +10 for
not being on Wednesday) while the global cost is 10 (the group is skipped
because it has fewer than two lecture siblings). -/
theorem claim_C7_decomposition_divergence :
    decomposedTotalCost c7Acts [] = 45
    ∧ calculateTotalCostWithRooms c7Acts [] = 10 := by
  decide

/-! ## Lemmas for per-seed determinism -/

theorem buildPrereqPairs_perm (activities : List Activity)
    (p1 p2 : List (String × List String)) (h : p1.Perm p2) :
    (buildPrereqPairs p1 activities).Perm (buildPrereqPairs p2 activities) := by
  unfold buildPrereqPairs
  exact List.Perm.flatMap_right _ h

theorem calculateTotalCostWithRooms_perm (activities : List Activity)
    (p1 p2 : List PrereqPair) (h : p1.Perm p2) :
    calculateTotalCostWithRooms activities p1
      = calculateTotalCostWithRooms activities p2 := by
  unfold calculateTotalCostWithRooms
  congr 1
  exact (h.map _).sum_eq

theorem calculatePrereqBonus_perm (activities : List Activity)
    (p1 p2 : List PrereqPair) (h : p1.Perm p2) :
    calculatePrereqBonus activities p1 = calculatePrereqBonus activities p2 := by
  unfold calculatePrereqBonus
  rw [h.length_eq, (h.filter _).length_eq]

/-- Claim C8: SimulatedAnnealing is deterministic per seed: with the same
random tape (the draws the seeded source produces), the same configuration
and temperature-level count, and equal inputs — where the Go prerequisites
map is equal as a map, i.e. the association list is identical up to the
iteration order Go randomizes — two runs return identical final activity
assignments and identical SAResult values. -/
theorem claim_C8_deterministic_per_seed (activities : List Activity)
    (rooms : List Room) (config : SAConfig)
    (prereqs1 prereqs2 : List (String × List String))
    (planLocations : PlanLocations) (electives : List String)
    (constraints : RoomConstraints) (levels : Nat) (tape : Nat → SADraw)
    (hperm : prereqs1.Perm prereqs2) :
    SimulatedAnnealing activities rooms config prereqs1 planLocations
      electives constraints levels tape
    = SimulatedAnnealing activities rooms config prereqs2 planLocations
      electives constraints levels tape := by
  unfold SimulatedAnnealing
  have hpp := buildPrereqPairs_perm activities prereqs1 prereqs2 hperm
  simp only []
  rw [calculateTotalCostWithRooms_perm _ _ _ hpp]
  rw [calculateTotalCostWithRooms_perm _ _ _ hpp]
  rw [calculatePrereqBonus_perm _ _ _ hpp]


/-- Witness for claim C8's theorem: a one-level, one-iteration run with the
prerequisites map given in two different iteration orders. -/
theorem claim_C8_witness :
    SimulatedAnnealing [exAssigned] [exRoom] ⟨1, 1/2, 0, 1⟩
      [("CIT2000", ["CBF1000"]), ("CBF1000", [])] [] [] [] 1 (fun _ => exDraw)
    = SimulatedAnnealing [exAssigned] [exRoom] ⟨1, 1/2, 0, 1⟩
      [("CBF1000", []), ("CIT2000", ["CBF1000"])] [] [] [] 1
      (fun _ => exDraw) :=
  claim_C8_deterministic_per_seed [exAssigned] [exRoom] ⟨1, 1/2, 0, 1⟩
    [("CIT2000", ["CBF1000"]), ("CBF1000", [])]
    [("CBF1000", []), ("CIT2000", ["CBF1000"])] [] [] [] 1 (fun _ => exDraw)
    (by decide)

end TimetablingUDP
